import Mathlib

/-!
# aws-load-balancer-drain-wait: the drain-resolution workflow of `main.go`

A shallow embedding of `buildConfigFromRequest`, `DelayUntilDrain`,
`GetArnForELBWithHostname`, `GetTargetGroupsForELB` and `WaitUntilIPDraining`.

The Kubernetes and ELBv2 clients are black boxes.  A `World` fixes what every
collaborator call answers: the `n`-th call of a kind gets the `n`-th answer of
that kind, so every behaviour of the collaborators on a run is some `World`.
A `State` counts the calls made so far and keeps a log of them.  The unbounded
`for` loops take a fuel argument; an `Outcome` tells whether the fuel ran out,
the goroutine panicked, or the function returned.

The fields `DNSName` and `LoadBalancerArn` of a load balancer are pointers that
may be nil (`Option String`): the source dereferences them without a guard.  The
fields `Target.Id` and `TargetGroupArn` are plain strings: the service always
fills them.
-/

namespace DrainWait

/-! ## Data model -/

/-- A Go `error` value that is not nil. -/
inductive GoError where
  /-- The value of `ctx.Err()` once the deadline has passed (`context.DeadlineExceeded`). -/
  | deadlineExceeded
  /-- The value of `errors.New(msg)`. -/
  | errorsNew (msg : String)
  /-- An error value handed back by a Kubernetes or ELBv2 client call. -/
  | collaborator (msg : String)
  /-- The error value of `strconv.Atoi` on the given input. -/
  | strconv (input : String)
  deriving DecidableEq, Repr

deriving instance DecidableEq for Except

/-- How a call of the program ends: the fuel of the model ran out, the goroutine panicked on
a nil pointer, or the function returned the value. -/
inductive Outcome (α : Type) where
  | outOfFuel
  | panic
  | returned (a : α)
  deriving DecidableEq, Repr

/-- The answer of a collaborator call: its error, or its payload. -/
inductive Resp (α : Type) where
  | err (e : String)
  | ok (a : α)
  deriving DecidableEq, Repr

/-- The struct `DelayConfig` (lines 152-157). -/
structure DelayConfig where
  MaxDelay : Int
  IPAddress : String
  IngressNamespace : String
  IngressName : String
  deriving DecidableEq, Repr

/-- One entry of `ingress.Status.LoadBalancer.Ingress`; only `Hostname` is read. -/
structure LoadBalancerIngress where
  Hostname : String
  deriving DecidableEq, Repr

/-- The ingress resource as far as the source reads it: the load-balancer status entries. -/
structure Ingress where
  LoadBalancerIngress : List LoadBalancerIngress
  deriving DecidableEq, Repr

/-- An entry of `DescribeLoadBalancersOutput.LoadBalancers`; both fields are `*string` in the
SDK, `none` is the nil pointer. -/
structure LoadBalancer where
  DNSName : Option String
  LoadBalancerArn : Option String
  deriving DecidableEq, Repr

/-- Modelled from the spec: the SDK string enum `elbv2types.TargetTypeEnum` (the member type
of a routing group); the source compares against `TargetTypeEnumIp` only. -/
inductive TargetTypeEnum where
  | instanceType
  | ip
  | lambda
  | alb
  | other (value : String)
  deriving DecidableEq, Repr

/-- An entry of `DescribeTargetGroupsOutput.TargetGroups`. -/
structure TargetGroup where
  TargetGroupArn : String
  TargetType : TargetTypeEnum
  deriving DecidableEq, Repr

/-- Modelled from the spec: the SDK string enum `elbv2types.TargetHealthStateEnum`
(`MemberHealthRecord.state`); the source compares against `Draining` and `Unused` only. -/
inductive TargetHealthStateEnum where
  | initial
  | healthy
  | unhealthy
  | unused
  | draining
  | unavailable
  | other (value : String)
  deriving DecidableEq, Repr

/-- An entry of `DescribeTargetHealthOutput.TargetHealthDescriptions`: `Target.Id` and
`TargetHealth.State`. -/
structure TargetHealthDescription where
  Id : String
  State : TargetHealthStateEnum
  deriving DecidableEq, Repr

/-! ## Collaborators, context and run state -/

/-- What the outside answers.  `deadlinePassed n` tells whether the deadline of a context
with a positive timeout has passed at the `n`-th `ctx.Err()` check; the `Describe*` fields
give the answer of the `n`-th call of that kind on the given argument. -/
structure World where
  deadlinePassed : Nat → Bool
  ingressGet : String → String → Resp Ingress
  describeLoadBalancers : Nat → Resp (List LoadBalancer)
  describeTargetGroups : Nat → String → Resp (List TargetGroup)
  describeTargetHealth : Nat → String → Resp (List TargetHealthDescription)

/-- A collaborator call or a pause, as it happened. -/
inductive Event where
  | ingressGet (ns name : String) (r : Resp Ingress)
  | describeLoadBalancers (r : Resp (List LoadBalancer))
  | describeTargetGroups (elbArn : String) (r : Resp (List TargetGroup))
  | describeTargetHealth (tg : String) (r : Resp (List TargetHealthDescription))
  | sleep (ms : Nat)
  | waitUntil
  deriving DecidableEq, Repr

/-- Calls made so far, by kind, and the log of events in order. -/
structure State where
  ctxChecks : Nat
  lbCalls : Nat
  tgCalls : Nat
  healthCalls : Nat
  log : List Event
  deriving DecidableEq, Repr

/-- The state of a fresh request. -/
def State.init : State := ⟨0, 0, 0, 0, []⟩

/-- The context of `context.WithTimeout(context.Background(), d)`: the timeout in
nanoseconds. -/
structure Ctx where
  timeout : Int
  deriving DecidableEq, Repr

/-- The wrap of an integer to `int64`, as the machine product of line 201 does it. -/
def wrapInt64 (x : Int) : Int := (x + 2 ^ 63) % 2 ^ 64 - 2 ^ 63

/-- The context of line 201: `time.Duration(MaxDelay) * time.Second`, an `int64` product. -/
def withTimeout (maxDelay : Int) : Ctx := ⟨wrapInt64 (wrapInt64 maxDelay * 1000000000)⟩

/-- Whether the context is done at the `n`-th check: a context whose timeout is not positive
is expired from its creation; otherwise the world tells. -/
def expiredAt (w : World) (ctx : Ctx) (n : Nat) : Bool :=
  decide (ctx.timeout ≤ 0) || w.deadlinePassed n

/-- The check `ctx.Err() != nil`. -/
def ctxErr (w : World) (ctx : Ctx) (s : State) : Bool × State :=
  (expiredAt w ctx s.ctxChecks, { s with ctxChecks := s.ctxChecks + 1 })

/-- The call `c.k8sClient.NetworkingV1().Ingresses(ns).Get(ctx, name, ...)`.  With a context
that is done from its creation the client returns the error of the deadline before any
request, so nothing reaches the cluster; otherwise the world answers, and an error of the
world is the error value the call returns. -/
def ingressGet (w : World) (ctx : Ctx) (ns name : String) (s : State) :
    Except GoError Ingress × State :=
  if ctx.timeout ≤ 0 then (Except.error GoError.deadlineExceeded, s)
  else
    match w.ingressGet ns name with
    | Resp.err e =>
      (Except.error (GoError.collaborator e),
       { s with log := s.log ++ [Event.ingressGet ns name (Resp.err e)] })
    | Resp.ok ingress =>
      (Except.ok ingress, { s with log := s.log ++ [Event.ingressGet ns name (Resp.ok ingress)] })

/-- The call `c.elbv2Client.DescribeLoadBalancers(ctx, ...)`. -/
def describeLoadBalancers (w : World) (s : State) : Resp (List LoadBalancer) × State :=
  (w.describeLoadBalancers s.lbCalls,
   { s with lbCalls := s.lbCalls + 1,
            log := s.log ++ [Event.describeLoadBalancers (w.describeLoadBalancers s.lbCalls)] })

/-- The call `c.elbv2Client.DescribeTargetGroups(ctx, {LoadBalancerArn: &elbArn})`. -/
def describeTargetGroups (w : World) (elbArn : String) (s : State) :
    Resp (List TargetGroup) × State :=
  (w.describeTargetGroups s.tgCalls elbArn,
   { s with tgCalls := s.tgCalls + 1,
            log := s.log ++ [Event.describeTargetGroups elbArn (w.describeTargetGroups s.tgCalls elbArn)] })

/-- The call `c.elbv2Client.DescribeTargetHealth(ctx, {TargetGroupArn: &tg})`. -/
def describeTargetHealth (w : World) (tg : String) (s : State) :
    Resp (List TargetHealthDescription) × State :=
  (w.describeTargetHealth s.healthCalls tg,
   { s with healthCalls := s.healthCalls + 1,
            log := s.log ++ [Event.describeTargetHealth tg (w.describeTargetHealth s.healthCalls tg)] })

/-- The pause `time.Sleep(ms * time.Millisecond)`. -/
def sleep (ms : Nat) (s : State) : State := { s with log := s.log ++ [Event.sleep ms] }

/-- The function `waitUntil` (lines 196-198): block until the context is done. -/
def waitUntil (s : State) : State := { s with log := s.log ++ [Event.waitUntil] }

/-! ## WaitUntilIPDraining (lines 295-335) -/

/-- The inner loop of lines 315-323: `true` when it appends the group and breaks. -/
def scanTargets (ip : String) : List TargetHealthDescription → Bool
  | [] => false
  | target :: rest =>
    let isMyIP := target.Id == ip
    let inDrainingState :=
      target.State == TargetHealthStateEnum.draining || target.State == TargetHealthStateEnum.unused
    if isMyIP && !inDrainingState then true else scanTargets ip rest

/-- The loop of lines 299-324 over the working set, with `stillHealthyTargetGroupARNs` as
accumulator: the error of the deadline, or the accumulated groups. -/
def scanTargetGroups (w : World) (ctx : Ctx) (ip : String) :
    List String → List String → State → Except GoError (List String) × State
  | [], stillHealthy, s => (Except.ok stillHealthy, s)
  | tg :: rest, stillHealthy, s =>
    match ctxErr w ctx s with
    | (true, s1) => (Except.error GoError.deadlineExceeded, s1)
    | (false, s1) =>
      match describeTargetHealth w tg s1 with
      | (Resp.err _, s2) => scanTargetGroups w ctx ip rest (stillHealthy ++ [tg]) s2
      | (Resp.ok targets, s2) =>
        if scanTargets ip targets then scanTargetGroups w ctx ip rest (stillHealthy ++ [tg]) s2
        else scanTargetGroups w ctx ip rest stillHealthy s2

/-- The method `WaitUntilIPDraining`: every iteration scans the working set from an empty
accumulator, returns nil when nothing was kept, and otherwise goes on with the kept groups
after a 250ms pause. -/
def WaitUntilIPDraining (w : World) (ctx : Ctx) (ip : String) :
    Nat → List String → State → Outcome (Except GoError Unit) × State
  | 0, _, s => (Outcome.outOfFuel, s)
  | fuel + 1, targetGroupArns, s =>
    match scanTargetGroups w ctx ip targetGroupArns [] s with
    | (Except.error e, s1) => (Outcome.returned (Except.error e), s1)
    | (Except.ok stillHealthy, s1) =>
      if stillHealthy.length = 0 then (Outcome.returned (Except.ok ()), s1)
      else WaitUntilIPDraining w ctx ip fuel stillHealthy (sleep 250 s1)

/-! ## GetArnForELBWithHostname (lines 245-267) and GetTargetGroupsForELB (lines 269-293) -/

/-- The loop of lines 258-262 followed by line 265: the ARN of the first entry whose DNS name
equals the hostname, the empty string when the loop finds none.  The result is `none` when
the loop dereferences a nil pointer: `*elb.DNSName` of an entry it compares (line 259), or
`*elb.LoadBalancerArn` of the entry it returns (line 260). -/
def findArn (hostname : String) : List LoadBalancer → Option String
  | [] => some ""
  | elb :: rest =>
    match elb.DNSName with
    | none => none
    | some dnsName =>
      if dnsName == hostname then elb.LoadBalancerArn else findArn hostname rest

/-- The method `GetArnForELBWithHostname`: a failed listing is retried after 100ms, a
successful one is searched once; a nil dereference in the search panics. -/
def GetArnForELBWithHostname (w : World) (ctx : Ctx) (hostname : String) :
    Nat → State → Outcome (Except GoError String) × State
  | 0, s => (Outcome.outOfFuel, s)
  | fuel + 1, s =>
    match ctxErr w ctx s with
    | (true, s1) => (Outcome.returned (Except.error GoError.deadlineExceeded), s1)
    | (false, s1) =>
      match describeLoadBalancers w s1 with
      | (Resp.err _, s2) => GetArnForELBWithHostname w ctx hostname fuel (sleep 100 s2)
      | (Resp.ok loadBalancers, s2) =>
        match findArn hostname loadBalancers with
        | none => (Outcome.panic, s2)
        | some arn => (Outcome.returned (Except.ok arn), s2)

/-- The loop of lines 282-288: the ARNs of the groups of target type IP, in listing order. -/
def ipTargetGroupArns : List TargetGroup → List String → List String
  | [], targetGroupArns => targetGroupArns
  | tg :: rest, targetGroupArns =>
    if tg.TargetType != TargetTypeEnum.ip then ipTargetGroupArns rest targetGroupArns
    else ipTargetGroupArns rest (targetGroupArns ++ [tg.TargetGroupArn])

/-- The method `GetTargetGroupsForELB`: a failed listing is retried after 100ms. -/
def GetTargetGroupsForELB (w : World) (ctx : Ctx) (elbArn : String) :
    Nat → State → Outcome (Except GoError (List String)) × State
  | 0, s => (Outcome.outOfFuel, s)
  | fuel + 1, s =>
    match ctxErr w ctx s with
    | (true, s1) => (Outcome.returned (Except.error GoError.deadlineExceeded), s1)
    | (false, s1) =>
      match describeTargetGroups w elbArn s1 with
      | (Resp.err _, s2) => GetTargetGroupsForELB w ctx elbArn fuel (sleep 100 s2)
      | (Resp.ok targetGroups, s2) =>
        (Outcome.returned (Except.ok (ipTargetGroupArns targetGroups [])), s2)

/-! ## DelayUntilDrain (lines 200-243) -/

/-- The loop of lines 213-218 over the load-balancer status entries. -/
def resolveHostname : List LoadBalancerIngress → String → String
  | [], hostname => hostname
  | lbIngress :: rest, hostname =>
    if lbIngress.Hostname != "" then resolveHostname rest lbIngress.Hostname
    else resolveHostname rest hostname

/-- Lines 235-242: list the IP target groups of the load balancer and wait for the drain. -/
def drainLoadBalancer (w : World) (ctx : Ctx) (ip : String) (fuel : Nat) (ingressElbArn : String)
    (s : State) : Outcome (Except GoError Unit) × State :=
  match GetTargetGroupsForELB w ctx ingressElbArn fuel s with
  | (Outcome.outOfFuel, s1) => (Outcome.outOfFuel, s1)
  | (Outcome.panic, s1) => (Outcome.panic, s1)
  | (Outcome.returned (Except.error err), s1) =>
    (Outcome.returned (Except.error err), waitUntil s1)
  | (Outcome.returned (Except.ok remainingTargetGroupArns), s1) =>
    WaitUntilIPDraining w ctx ip fuel remainingTargetGroupArns s1

/-- Lines 225-242: resolve the hostname to a load balancer and go on with it. -/
def drainHostname (w : World) (ctx : Ctx) (ip : String) (fuel : Nat) (hostname : String)
    (s : State) : Outcome (Except GoError Unit) × State :=
  match GetArnForELBWithHostname w ctx hostname fuel s with
  | (Outcome.outOfFuel, s1) => (Outcome.outOfFuel, s1)
  | (Outcome.panic, s1) => (Outcome.panic, s1)
  | (Outcome.returned (Except.error err), s1) =>
    (Outcome.returned (Except.error err), waitUntil s1)
  | (Outcome.returned (Except.ok ingressElbArn), s1) =>
    if ingressElbArn == "" then
      (Outcome.returned (Except.error
        (GoError.errorsNew ("could not find ingress ELB ARN for hostname " ++ hostname))), s1)
    else drainLoadBalancer w ctx ip fuel ingressElbArn s1

/-- The method `DelayUntilDrain`. -/
def DelayUntilDrain (w : World) (fuel : Nat) (delayConfig : DelayConfig) (s : State) :
    Outcome (Except GoError Unit) × State :=
  let ctx := withTimeout delayConfig.MaxDelay
  match ingressGet w ctx delayConfig.IngressNamespace delayConfig.IngressName s with
  | (Except.error err, s1) => (Outcome.returned (Except.error err), waitUntil s1)
  | (Except.ok ingress, s1) =>
    let hostname := resolveHostname ingress.LoadBalancerIngress ""
    if hostname == "" then
      (Outcome.returned (Except.error (GoError.errorsNew
        ("No hostname for ingress " ++ delayConfig.IngressNamespace ++ "/" ++
          delayConfig.IngressName))), s1)
    else drainHostname w ctx delayConfig.IPAddress fuel hostname s1

/-! ## buildConfigFromRequest (lines 164-194) and the /drain-delay handler (lines 83-97) -/

/-- The parsed query `r.URL.Query()`: every key with its values, none when the key is
absent. -/
abbrev Values := String → List String

/-- The method `url.Values.Get`: the first value of the key, the empty string without one. -/
def Values.Get (v : Values) (key : String) : String :=
  match v key with
  | [] => ""
  | first :: _ => first

/-- The function `buildConfigFromRequest`; `atoi` stands for `strconv.Atoi`. -/
def buildConfigFromRequest (atoi : String → Except GoError Int) (query : Values) :
    Except GoError DelayConfig :=
  let maxDelayStr := query.Get "max-delay"
  match (if maxDelayStr == "" then Except.ok 60 else atoi maxDelayStr) with
  | Except.error err => Except.error err
  | Except.ok maxDelay =>
    let ipAddress := query.Get "ip"
    if ipAddress == "" then Except.error (GoError.errorsNew "ip must be in query param")
    else
      let ingressNamespace := query.Get "namespace"
      if ingressNamespace == "" then
        Except.error (GoError.errorsNew "namespace must be in query param")
      else
        let ingressName := query.Get "ingress"
        if ingressName == "" then
          Except.error (GoError.errorsNew "ingress must be in query param")
        else Except.ok ⟨maxDelay, ipAddress, ingressNamespace, ingressName⟩

/-- The handler of `/drain-delay`: the HTTP status and body it writes (`http.Error` ends the
body with a newline); a panic leaves the handler without a response of its own. -/
def drainDelayHandler (w : World) (atoi : String → Except GoError Int) (fuel : Nat)
    (query : Values) (s : State) : Outcome (Nat × String) × State :=
  match buildConfigFromRequest atoi query with
  | Except.error _ => (Outcome.returned (400, "Bad request\n"), s)
  | Except.ok delayConfig =>
    match DelayUntilDrain w fuel delayConfig s with
    | (Outcome.outOfFuel, s1) => (Outcome.outOfFuel, s1)
    | (Outcome.panic, s1) => (Outcome.panic, s1)
    | (Outcome.returned (Except.error _), s1) =>
      (Outcome.returned (500, "Drain delay failed\n"), s1)
    | (Outcome.returned (Except.ok ()), s1) => (Outcome.returned (200, "Success"), s1)

/-! ## Specification-side definitions -/

/-- The answers a scan gets: the `i`-th group of the working set with the answer of health
call number `k + i` on it. -/
def healthAnswers (w : World) : Nat → List String → List (String × Resp (List TargetHealthDescription))
  | _, [] => []
  | k, tg :: rest => (tg, w.describeTargetHealth k tg) :: healthAnswers w (k + 1) rest

/-- A record that keeps its group: its id is the target IP and its state is neither Draining
nor Unused. -/
def activeRecord (ip : String) (t : TargetHealthDescription) : Prop :=
  t.Id = ip ∧ t.State ≠ TargetHealthStateEnum.draining ∧ t.State ≠ TargetHealthStateEnum.unused

instance (ip : String) (t : TargetHealthDescription) : Decidable (activeRecord ip t) := by
  unfold activeRecord; infer_instance

/-- The group stays in the working set: the fetch failed, or it returned an active record of
the IP. -/
def keepsGroup (ip : String) : Resp (List TargetHealthDescription) → Prop
  | Resp.err _ => True
  | Resp.ok targets => ∃ t ∈ targets, activeRecord ip t

instance (ip : String) (r : Resp (List TargetHealthDescription)) : Decidable (keepsGroup ip r) := by
  cases r <;> unfold keepsGroup <;> infer_instance

/-- The groups that stay, in their order. -/
def keptGroups (ip : String) (answers : List (String × Resp (List TargetHealthDescription))) :
    List String :=
  (answers.filter (fun p => decide (keepsGroup ip p.2))).map Prod.fst

/-- The health events of a scan, in order. -/
def healthEvents (answers : List (String × Resp (List TargetHealthDescription))) : List Event :=
  answers.map (fun p => Event.describeTargetHealth p.1 p.2)

/-- The working set and the state at the start of iteration `n` of the loop of
`WaitUntilIPDraining` (the first iteration is number 0), when the loop gets that far: every
earlier scan ran to its end and kept some group. -/
def workingSetAt (w : World) (ctx : Ctx) (ip : String) :
    Nat → List String → State → Option (List String × State)
  | 0, targetGroupArns, s => some (targetGroupArns, s)
  | n + 1, targetGroupArns, s =>
    match scanTargetGroups w ctx ip targetGroupArns [] s with
    | (Except.error _, _) => none
    | (Except.ok stillHealthy, s1) =>
      if stillHealthy.length = 0 then none
      else workingSetAt w ctx ip n stillHealthy (sleep 250 s1)

/-- The events of `a` failed `DescribeLoadBalancers` calls from call number `k` on, each
followed by its 100ms pause. -/
def lbRetryEvents (w : World) : Nat → Nat → List Event
  | _, 0 => []
  | k, a + 1 =>
    Event.describeLoadBalancers (w.describeLoadBalancers k) :: Event.sleep 100 ::
      lbRetryEvents w (k + 1) a

/-- The events of `b` failed `DescribeTargetGroups` calls from call number `k` on, each
followed by its 100ms pause. -/
def tgRetryEvents (w : World) (elbArn : String) : Nat → Nat → List Event
  | _, 0 => []
  | k, b + 1 =>
    Event.describeTargetGroups elbArn (w.describeTargetGroups k elbArn) :: Event.sleep 100 ::
      tgRetryEvents w elbArn (k + 1) b

/-- What `GetArnForELBWithHostname` makes of the search of a listing: a panic on a nil
dereference, the ARN found otherwise. -/
def searchOutcome (hostname : String) (lbs : List LoadBalancer) :
    Outcome (Except GoError String) :=
  match findArn hostname lbs with
  | none => Outcome.panic
  | some arn => Outcome.returned (Except.ok arn)

/-- Whether the event is a `DescribeTargetGroups` call. -/
def Event.isDescribeTargetGroups : Event → Bool
  | Event.describeTargetGroups _ _ => true
  | _ => false

/-- Whether the event is a `DescribeTargetHealth` call. -/
def Event.isDescribeTargetHealth : Event → Bool
  | Event.describeTargetHealth _ _ => true
  | _ => false

/-! ## Sample worlds -/

/-- Scenario B of the spec: one load balancer, one IP group, the target IP is Healthy in the
first two polls and Unused in the third. -/
def worldB : World :=
  ⟨fun _ => false,
   fun _ _ => Resp.ok ⟨[⟨"lb.example.com"⟩]⟩,
   fun _ => Resp.ok [⟨some "lb.example.com", some "arn:lb"⟩],
   fun _ _ => Resp.ok [⟨"tg1", TargetTypeEnum.ip⟩],
   fun n _ =>
     if n < 2 then Resp.ok [⟨"10.0.0.1", TargetHealthStateEnum.healthy⟩]
     else Resp.ok [⟨"10.0.0.1", TargetHealthStateEnum.unused⟩]⟩

/-- A world for one scan of four groups: the fetch of `tg1` fails, `tg2` holds the IP
Healthy, `tg3` holds it Draining, `tg4` does not hold it. -/
def worldScan : World :=
  ⟨fun _ => false,
   fun _ _ => Resp.ok ⟨[⟨"lb.example.com"⟩]⟩,
   fun _ => Resp.ok [⟨some "lb.example.com", some "arn:lb"⟩],
   fun _ _ => Resp.ok [],
   fun _ tg =>
     if tg = "tg1" then Resp.err "throttled"
     else if tg = "tg2" then Resp.ok [⟨"10.0.0.9", TargetHealthStateEnum.draining⟩,
       ⟨"10.0.0.1", TargetHealthStateEnum.healthy⟩]
     else if tg = "tg3" then Resp.ok [⟨"10.0.0.1", TargetHealthStateEnum.draining⟩]
     else Resp.ok [⟨"10.0.0.9", TargetHealthStateEnum.healthy⟩]⟩

/-- A world where `tg1` is answered with an error once and `tg2` holds the IP Initial twice,
before both report it gone. -/
def worldShrink : World :=
  ⟨fun _ => false,
   fun _ _ => Resp.ok ⟨[⟨"lb.example.com"⟩]⟩,
   fun _ => Resp.ok [⟨some "lb.example.com", some "arn:lb"⟩],
   fun _ _ => Resp.ok [],
   fun n tg =>
     if n = 0 then Resp.err "throttled"
     else if n < 4 ∧ tg = "tg2" then Resp.ok [⟨"10.0.0.1", TargetHealthStateEnum.initial⟩]
     else Resp.ok []⟩

/-- A world whose ingress Get fails. -/
def worldGetFails : World :=
  ⟨fun _ => false,
   fun _ _ => Resp.err "connection refused",
   fun _ => Resp.ok [⟨some "lb.example.com", some "arn:lb"⟩],
   fun _ _ => Resp.ok [⟨"tg1", TargetTypeEnum.ip⟩],
   fun _ _ => Resp.ok []⟩

/-- A world whose ingress has status entries without a hostname only. -/
def worldNoHostname : World :=
  ⟨fun _ => false,
   fun _ _ => Resp.ok ⟨[⟨""⟩, ⟨""⟩]⟩,
   fun _ => Resp.ok [⟨some "lb.example.com", some "arn:lb"⟩],
   fun _ _ => Resp.ok [⟨"tg1", TargetTypeEnum.ip⟩],
   fun _ _ => Resp.ok []⟩

/-- Scenario C of the spec, after one failed listing: no load balancer has the DNS name of
the ingress. -/
def worldNoLoadBalancer : World :=
  ⟨fun _ => false,
   fun _ _ => Resp.ok ⟨[⟨"lb.example.com"⟩]⟩,
   fun n =>
     if n = 0 then Resp.err "throttled"
     else Resp.ok [⟨some "other.example.com", some "arn:other"⟩],
   fun _ _ => Resp.ok [⟨"tg1", TargetTypeEnum.ip⟩],
   fun _ _ => Resp.ok []⟩

/-- A world whose load balancer has instance and lambda target groups only; the first
listing of the load balancers and the first listing of the groups fail. -/
def worldNoIpGroups : World :=
  ⟨fun _ => false,
   fun _ _ => Resp.ok ⟨[⟨"lb.example.com"⟩]⟩,
   fun n =>
     if n = 0 then Resp.err "throttled"
     else Resp.ok [⟨some "other.example.com", some "arn:other"⟩, ⟨some "lb.example.com", some "arn:lb"⟩,
       ⟨some "lb.example.com", some "arn:twin"⟩],
   fun n _ =>
     if n = 0 then Resp.err "throttled"
     else Resp.ok [⟨"tg1", TargetTypeEnum.instanceType⟩, ⟨"tg2", TargetTypeEnum.lambda⟩],
   fun _ _ => Resp.ok [⟨"10.0.0.1", TargetHealthStateEnum.healthy⟩]⟩

/-- A world whose ingress lists an early hostname, an entry without one, a late hostname
and another entry without one; each hostname has its load balancer. -/
def worldTwoHostnames : World :=
  ⟨fun _ => false,
   fun _ _ => Resp.ok ⟨[⟨"first.example.com"⟩, ⟨""⟩, ⟨"last.example.com"⟩, ⟨""⟩]⟩,
   fun _ => Resp.ok [⟨some "first.example.com", some "arn:first"⟩,
     ⟨some "last.example.com", some "arn:last"⟩],
   fun _ _ => Resp.ok [],
   fun _ _ => Resp.ok []⟩

/-- A world whose listing of the load balancers starts with a gateway load balancer, which
has no DNS name, ahead of the load balancer of the ingress. -/
def worldGateway : World :=
  ⟨fun _ => false,
   fun _ _ => Resp.ok ⟨[⟨"lb.example.com"⟩]⟩,
   fun _ => Resp.ok [⟨none, some "arn:gwlb"⟩, ⟨some "lb.example.com", some "arn:lb"⟩],
   fun _ _ => Resp.ok [⟨"tg1", TargetTypeEnum.ip⟩],
   fun _ _ => Resp.ok []⟩

/-- The request of the scenarios: IP 10.0.0.1 behind ingress ns1/ing1. -/
def sampleConfig (maxDelay : Int) : DelayConfig := ⟨maxDelay, "10.0.0.1", "ns1", "ing1"⟩

/-- The value of a string of decimal digits, none when a character is no digit. -/
def digitsValue : List Char → Nat → Option Nat
  | [], acc => some acc
  | c :: cs, acc =>
    if c.isDigit then digitsValue cs (acc * 10 + (c.toNat - 48)) else none

/-- A stand-in for `strconv.Atoi` in the examples: an optional sign and at least one decimal
digit, within the range of `int64`. -/
def decimalAtoi (s : String) : Except GoError Int :=
  let signed : Bool × List Char :=
    match s.data with
    | '-' :: rest => (true, rest)
    | '+' :: rest => (false, rest)
    | all => (false, all)
  match signed.2, digitsValue signed.2 0 with
  | _ :: _, some n =>
    let v : Int := if signed.1 then - (n : Int) else (n : Int)
    if -9223372036854775808 ≤ v ∧ v ≤ 9223372036854775807 then Except.ok v
    else Except.error (GoError.strconv s)
  | _, _ => Except.error (GoError.strconv s)

/-- The query `max-delay=&ip=10.0.0.1&namespace=ns1&ingress=ing1`. -/
def queryEmptyMaxDelay : Values := fun key =>
  if key = "max-delay" then [""]
  else if key = "ip" then ["10.0.0.1"]
  else if key = "namespace" then ["ns1"]
  else if key = "ingress" then ["ing1"]
  else []

/-- The query `max-delay=30&ip=10.0.0.1&namespace=ns1&ingress=ing1`. -/
def queryFull : Values := fun key =>
  if key = "max-delay" then ["30"]
  else if key = "ip" then ["10.0.0.1"]
  else if key = "namespace" then ["ns1"]
  else if key = "ingress" then ["ing1"]
  else []

/-- The query `max-delay=soon&ip=10.0.0.1&namespace=ns1`, without an ingress. -/
def queryBad : Values := fun key =>
  if key = "max-delay" then ["soon"]
  else if key = "ip" then ["10.0.0.1"]
  else if key = "namespace" then ["ns1"]
  else []

/-! ## Lemmas on the scan -/

theorem scanTargets_iff (ip : String) (targets : List TargetHealthDescription) :
    scanTargets ip targets = true ↔ ∃ t ∈ targets, activeRecord ip t := by
  induction targets with
  | nil => simp [scanTargets]
  | cons t rest ih =>
    unfold scanTargets
    by_cases h : activeRecord ip t
    · have h1 : (t.Id == ip && !(t.State == TargetHealthStateEnum.draining ||
          t.State == TargetHealthStateEnum.unused)) = true := by
        obtain ⟨a, b, c⟩ := h
        simp [a, b, c]
      simp only [h1, if_true, true_iff]
      exact ⟨t, List.mem_cons_self _ _, h⟩
    · have h1 : (t.Id == ip && !(t.State == TargetHealthStateEnum.draining ||
          t.State == TargetHealthStateEnum.unused)) = false := by
        cases hb : (t.Id == ip && !(t.State == TargetHealthStateEnum.draining ||
          t.State == TargetHealthStateEnum.unused)) with
        | false => rfl
        | true =>
          exfalso; apply h
          simp [activeRecord] at hb ⊢
          exact ⟨hb.1, hb.2.1, hb.2.2⟩
      simp only [h1, Bool.false_eq_true, if_false, ih, List.mem_cons]
      constructor
      · rintro ⟨u, hu, hact⟩; exact ⟨u, Or.inr hu, hact⟩
      · rintro ⟨u, hu | hu, hact⟩
        · subst hu; exact absurd hact h
        · exact ⟨u, hu, hact⟩

theorem keepsGroup_ok_iff (ip : String) (targets : List TargetHealthDescription) :
    keepsGroup ip (Resp.ok targets) ↔ scanTargets ip targets = true := by
  rw [scanTargets_iff]; rfl

theorem keptGroups_cons_keep (ip tg : String) (r : Resp (List TargetHealthDescription))
    (rest : List (String × Resp (List TargetHealthDescription))) (h : keepsGroup ip r) :
    keptGroups ip ((tg, r) :: rest) = tg :: keptGroups ip rest := by
  simp [keptGroups, List.filter_cons, h]

theorem keptGroups_cons_drop (ip tg : String) (r : Resp (List TargetHealthDescription))
    (rest : List (String × Resp (List TargetHealthDescription))) (h : ¬ keepsGroup ip r) :
    keptGroups ip ((tg, r) :: rest) = keptGroups ip rest := by
  simp [keptGroups, List.filter_cons, h]

/-- A scan that runs to its end: what it returns and the state it leaves. -/
theorem scan_ok (w : World) (ctx : Ctx) (ip : String) (tgs : List String) :
    ∀ (acc : List String) (s : State) (next : List String) (s1 : State),
      scanTargetGroups w ctx ip tgs acc s = (Except.ok next, s1) →
      next = acc ++ keptGroups ip (healthAnswers w s.healthCalls tgs) ∧
      (∀ i, i < tgs.length → expiredAt w ctx (s.ctxChecks + i) = false) ∧
      s1 = { s with ctxChecks := s.ctxChecks + tgs.length,
                    healthCalls := s.healthCalls + tgs.length,
                    log := s.log ++ healthEvents (healthAnswers w s.healthCalls tgs) } := by
  induction tgs with
  | nil =>
    intro acc s next s1 h
    simp [scanTargetGroups] at h
    obtain ⟨h1, h2⟩ := h
    subst h1; subst h2
    simp [healthAnswers, keptGroups, healthEvents]
  | cons tg rest ih =>
    intro acc s next s1 h
    unfold scanTargetGroups at h
    simp only [ctxErr] at h
    cases hx : expiredAt w ctx s.ctxChecks with
    | true => simp [hx] at h
    | false =>
      simp only [hx, describeTargetHealth] at h
      cases hr : w.describeTargetHealth s.healthCalls tg with
      | err e =>
        simp only [hr] at h
        obtain ⟨h1, h2, h3⟩ := ih _ _ _ _ h
        refine ⟨?_, ?_, ?_⟩
        · rw [h1]
          simp only [healthAnswers, hr]
          rw [keptGroups_cons_keep ip tg (Resp.err e) _ trivial]
          simp
        · intro i hi
          cases i with
          | zero => simpa using hx
          | succ j =>
            have := h2 j (by simpa using hi)
            simpa [Nat.add_assoc, Nat.add_comm 1 j] using this
        · rw [h3]
          simp [healthAnswers, healthEvents, hr, Nat.add_assoc, Nat.add_comm 1]
      | ok targets =>
        simp only [hr] at h
        by_cases hk : scanTargets ip targets = true
        · simp only [hk, if_true] at h
          obtain ⟨h1, h2, h3⟩ := ih _ _ _ _ h
          refine ⟨?_, ?_, ?_⟩
          · rw [h1]
            simp only [healthAnswers, hr]
            rw [keptGroups_cons_keep ip tg (Resp.ok targets) _ ((keepsGroup_ok_iff ip targets).2 hk)]
            simp
          · intro i hi
            cases i with
            | zero => simpa using hx
            | succ j =>
              have := h2 j (by simpa using hi)
              simpa [Nat.add_assoc, Nat.add_comm 1 j] using this
          · rw [h3]
            simp [healthAnswers, healthEvents, hr, Nat.add_assoc, Nat.add_comm 1]
        · simp only [hk, if_false] at h
          obtain ⟨h1, h2, h3⟩ := ih _ _ _ _ h
          refine ⟨?_, ?_, ?_⟩
          · rw [h1]
            simp only [healthAnswers, hr]
            rw [keptGroups_cons_drop ip tg (Resp.ok targets) _
              (fun hc => hk ((keepsGroup_ok_iff ip targets).1 hc))]
          · intro i hi
            cases i with
            | zero => simpa using hx
            | succ j =>
              have := h2 j (by simpa using hi)
              simpa [Nat.add_assoc, Nat.add_comm 1 j] using this
          · rw [h3]
            simp [healthAnswers, healthEvents, hr, Nat.add_assoc, Nat.add_comm 1]

theorem healthAnswers_fst (w : World) (tgs : List String) :
    ∀ k, (healthAnswers w k tgs).map Prod.fst = tgs := by
  induction tgs with
  | nil => intro k; rfl
  | cons tg rest ih => intro k; simp [healthAnswers, ih]

theorem keptGroups_sublist (w : World) (ip : String) (k : Nat) (tgs : List String) :
    (keptGroups ip (healthAnswers w k tgs)).Sublist tgs := by
  have h := healthAnswers_fst w tgs k
  unfold keptGroups
  calc (List.map Prod.fst (List.filter (fun p => decide (keepsGroup ip p.2)) (healthAnswers w k tgs))).Sublist
        (List.map Prod.fst (healthAnswers w k tgs)) := List.Sublist.map _ (List.filter_sublist _)
    _ = tgs := h

/-- A scan whose deadline checks all pass runs to its end. -/
theorem scan_live (w : World) (ctx : Ctx) (ip : String) (tgs : List String) :
    ∀ (acc : List String) (s : State),
      (∀ i, i < tgs.length → expiredAt w ctx (s.ctxChecks + i) = false) →
      ∃ next s1, scanTargetGroups w ctx ip tgs acc s = (Except.ok next, s1) := by
  induction tgs with
  | nil => intro acc s _; exact ⟨acc, s, rfl⟩
  | cons tg rest ih =>
    intro acc s hlive
    have h0 : expiredAt w ctx s.ctxChecks = false := by simpa using hlive 0 (by simp)
    have hrest : ∀ (acc1 : List String) (l : List Event), ∃ next s1,
        scanTargetGroups w ctx ip rest acc1
          { s with ctxChecks := s.ctxChecks + 1, healthCalls := s.healthCalls + 1, log := l } =
          (Except.ok next, s1) := by
      intro acc1 l
      apply ih
      intro i hi
      have := hlive (i + 1) (by simpa using hi)
      simpa [Nat.add_assoc, Nat.add_comm 1 i] using this
    unfold scanTargetGroups
    simp only [ctxErr, h0, describeTargetHealth]
    cases hr : w.describeTargetHealth s.healthCalls tg with
    | err e => exact hrest _ _
    | ok targets =>
      by_cases hk : scanTargets ip targets = true
      · simp only [hk, if_true]; exact hrest _ _
      · simp only [hk, if_false]; exact hrest _ _

/-- A scan that is cut short returns the error of the deadline. -/
theorem scan_error (w : World) (ctx : Ctx) (ip : String) (tgs : List String) :
    ∀ (acc : List String) (s : State) (e : GoError) (s1 : State),
      scanTargetGroups w ctx ip tgs acc s = (Except.error e, s1) → e = GoError.deadlineExceeded := by
  induction tgs with
  | nil => intro acc s e s1 h; simp [scanTargetGroups] at h
  | cons tg rest ih =>
    intro acc s e s1 h
    unfold scanTargetGroups at h
    simp only [ctxErr] at h
    cases hx : expiredAt w ctx s.ctxChecks with
    | true =>
      simp only [hx, Prod.mk.injEq, Except.error.injEq] at h
      exact h.1.symm
    | false =>
      simp only [hx, describeTargetHealth] at h
      cases hr : w.describeTargetHealth s.healthCalls tg with
      | err e1 => simp only [hr] at h; exact ih _ _ _ _ h
      | ok targets =>
        simp only [hr] at h
        by_cases hk : scanTargets ip targets = true
        · simp only [hk, if_true] at h; exact ih _ _ _ _ h
        · simp only [hk, if_false] at h; exact ih _ _ _ _ h

/-! ## Lemmas on the loop of WaitUntilIPDraining -/

theorem workingSetAt_succ (w : World) (ctx : Ctx) (ip : String) (n : Nat) :
    ∀ (tgs : List String) (s : State) (ws1 : List String) (s1 : State),
      workingSetAt w ctx ip (n + 1) tgs s = some (ws1, s1) →
      ∃ ws sn s2, workingSetAt w ctx ip n tgs s = some (ws, sn) ∧
        scanTargetGroups w ctx ip ws [] sn = (Except.ok ws1, s2) ∧ ws1 ≠ [] ∧ s1 = sleep 250 s2 := by
  induction n with
  | zero =>
    intro tgs s ws1 s1 h
    simp only [workingSetAt] at h
    rcases hs : scanTargetGroups w ctx ip tgs [] s with ⟨r, s2⟩
    rw [hs] at h
    cases r with
    | error e => simp at h
    | ok next =>
      by_cases hl : next.length = 0
      · simp [hl] at h
      · simp only [hl, if_false, Option.some.injEq, Prod.mk.injEq] at h
        obtain ⟨h1, h2⟩ := h
        subst h1
        exact ⟨tgs, s, s2, rfl, hs, by intro hc; simp [hc] at hl, h2.symm⟩
  | succ n ih =>
    intro tgs s ws1 s1 h
    rw [workingSetAt] at h
    rcases hs : scanTargetGroups w ctx ip tgs [] s with ⟨r, s2⟩
    rw [hs] at h
    cases r with
    | error e => simp at h
    | ok next =>
      by_cases hl : next.length = 0
      · simp [hl] at h
      · simp only [hl, if_false] at h
        obtain ⟨ws, sn, s3, h1, h2, h3, h4⟩ := ih _ _ _ _ h
        refine ⟨ws, sn, s3, ?_, h2, h3, h4⟩
        rw [workingSetAt, hs]
        simp only [hl, if_false]
        exact h1

/-- The loop at iteration `n` is the loop started on the working set of iteration `n`. -/
theorem wait_from_workingSetAt (w : World) (ctx : Ctx) (ip : String) (n : Nat) :
    ∀ (tgs : List String) (s : State) (ws : List String) (sn : State),
      workingSetAt w ctx ip n tgs s = some (ws, sn) →
      ∀ fuel, WaitUntilIPDraining w ctx ip (n + fuel) tgs s = WaitUntilIPDraining w ctx ip fuel ws sn := by
  induction n with
  | zero =>
    intro tgs s ws sn h fuel
    simp only [workingSetAt, Option.some.injEq, Prod.mk.injEq] at h
    obtain ⟨h1, h2⟩ := h
    subst h1; subst h2
    simp
  | succ n ih =>
    intro tgs s ws sn h fuel
    rw [workingSetAt] at h
    rcases hs : scanTargetGroups w ctx ip tgs [] s with ⟨r, s2⟩
    rw [hs] at h
    cases r with
    | error e => simp at h
    | ok next =>
      by_cases hl : next.length = 0
      · simp [hl] at h
      · simp only [hl, if_false] at h
        have : n + 1 + fuel = (n + fuel) + 1 := by omega
        rw [this, WaitUntilIPDraining, hs]
        simp only [hl, if_false]
        exact ih _ _ _ _ h fuel

theorem workingSetAt_earlier (w : World) (ctx : Ctx) (ip : String) (tgs : List String) (s : State)
    (n : Nat) :
    ∀ (ws : List String) (sn : State), workingSetAt w ctx ip n tgs s = some (ws, sn) →
      ∀ k, k < n → ∃ wk sk next s2, workingSetAt w ctx ip k tgs s = some (wk, sk) ∧
        scanTargetGroups w ctx ip wk [] sk = (Except.ok next, s2) ∧ next ≠ [] := by
  induction n with
  | zero => intro ws sn _ k hk; omega
  | succ n ih =>
    intro ws sn h k hk
    obtain ⟨wn, sn1, s2, h1, h2, h3, _⟩ := workingSetAt_succ w ctx ip n tgs s ws sn h
    by_cases hkn : k = n
    · subst hkn; exact ⟨wn, sn1, ws, s2, h1, h2, h3⟩
    · exact ih wn sn1 h1 k (by omega)

/-- A successful return happens at the end of a scan that kept nothing. -/
theorem wait_ok_iteration (w : World) (ctx : Ctx) (ip : String) (fuel : Nat) :
    ∀ (tgs : List String) (s s1 : State),
      WaitUntilIPDraining w ctx ip fuel tgs s = (Outcome.returned (Except.ok ()), s1) →
      ∃ n, n < fuel ∧ ∃ ws sn, workingSetAt w ctx ip n tgs s = some (ws, sn) ∧
        scanTargetGroups w ctx ip ws [] sn = (Except.ok [], s1) := by
  induction fuel with
  | zero => intro tgs s s1 h; simp [WaitUntilIPDraining] at h
  | succ fuel ih =>
    intro tgs s s1 h
    rw [WaitUntilIPDraining] at h
    rcases hs : scanTargetGroups w ctx ip tgs [] s with ⟨r, s2⟩
    rw [hs] at h
    cases r with
    | error e => simp at h
    | ok next =>
      by_cases hl : next.length = 0
      · simp only [hl, if_true, Prod.mk.injEq, true_and] at h
        subst h
        have hn : next = [] := List.length_eq_zero.mp hl
        subst hn
        exact ⟨0, by omega, tgs, s, rfl, hs⟩
      · simp only [hl, if_false] at h
        obtain ⟨n, hn, ws, sn, h1, h2⟩ := ih _ _ _ h
        refine ⟨n + 1, by omega, ws, sn, ?_, h2⟩
        rw [workingSetAt, hs]
        simp only [hl, if_false]
        exact h1

/-- With fuel beyond iteration `n`, a scan of iteration `n` that keeps nothing ends the call
with success. -/
theorem wait_ok_of_empty_scan (w : World) (ctx : Ctx) (ip : String) (tgs : List String)
    (s s1 : State) (n fuel : Nat) (hn : n < fuel) (ws : List String) (sn : State)
    (hws : workingSetAt w ctx ip n tgs s = some (ws, sn))
    (hscan : scanTargetGroups w ctx ip ws [] sn = (Except.ok [], s1)) :
    WaitUntilIPDraining w ctx ip fuel tgs s = (Outcome.returned (Except.ok ()), s1) := by
  obtain ⟨k, rfl⟩ : ∃ k, fuel = n + (k + 1) := ⟨fuel - n - 1, by omega⟩
  rw [wait_from_workingSetAt w ctx ip n tgs s ws sn hws (k + 1), WaitUntilIPDraining, hscan]
  simp

theorem answers_kept_or_dropped (w : World) (ip : String) (tgs : List String) (k : Nat)
    (g : String) (hg : g ∈ tgs) :
    g ∈ keptGroups ip (healthAnswers w k tgs) ∨
    ∃ targets, (g, Resp.ok targets) ∈ healthAnswers w k tgs ∧ ¬ keepsGroup ip (Resp.ok targets) := by
  rw [← healthAnswers_fst w tgs k] at hg
  obtain ⟨⟨g1, r⟩, hmem, hfst⟩ := List.mem_map.mp hg
  simp only at hfst
  subst hfst
  by_cases hk : keepsGroup ip r
  · left
    unfold keptGroups
    exact List.mem_map.mpr ⟨(g1, r), List.mem_filter.mpr ⟨hmem, by simpa using hk⟩, rfl⟩
  · right
    cases r with
    | err e => exact absurd trivial hk
    | ok targets => exact ⟨targets, hmem, hk⟩

/-- After a successful return every group of the initial list was once answered without an
active record of the IP. -/
theorem wait_ok_drained (w : World) (ctx : Ctx) (ip : String) (fuel : Nat) :
    ∀ (tgs : List String) (s s1 : State),
      WaitUntilIPDraining w ctx ip fuel tgs s = (Outcome.returned (Except.ok ()), s1) →
      ∃ suffix, s1.log = s.log ++ suffix ∧ ∀ g, g ∈ tgs → ∃ targets,
        Event.describeTargetHealth g (Resp.ok targets) ∈ suffix ∧
        ¬ ∃ t, t ∈ targets ∧ activeRecord ip t := by
  induction fuel with
  | zero => intro tgs s s1 h; simp [WaitUntilIPDraining] at h
  | succ fuel ih =>
    intro tgs s s1 h
    rw [WaitUntilIPDraining] at h
    rcases hs : scanTargetGroups w ctx ip tgs [] s with ⟨r, s2⟩
    rw [hs] at h
    cases r with
    | error e => simp at h
    | ok next =>
      obtain ⟨hnext, _, hs2⟩ := scan_ok w ctx ip tgs [] s next s2 hs
      simp only [List.nil_append] at hnext
      have hdrop : ∀ g, g ∈ tgs → g ∈ next ∨ ∃ targets,
          Event.describeTargetHealth g (Resp.ok targets) ∈
            healthEvents (healthAnswers w s.healthCalls tgs) ∧
          ¬ ∃ t, t ∈ targets ∧ activeRecord ip t := by
        intro g hg
        rcases answers_kept_or_dropped w ip tgs s.healthCalls g hg with hk | ⟨targets, hmem, hno⟩
        · left; rw [hnext]; exact hk
        · right
          refine ⟨targets, ?_, ?_⟩
          · unfold healthEvents
            exact List.mem_map.mpr ⟨(g, Resp.ok targets), hmem, rfl⟩
          · intro hc
            apply hno
            obtain ⟨t, ht, hact⟩ := hc
            exact ⟨t, ht, hact⟩
      by_cases hl : next.length = 0
      · simp only [hl, if_true, Prod.mk.injEq, true_and] at h
        subst h
        refine ⟨healthEvents (healthAnswers w s.healthCalls tgs), by rw [hs2], ?_⟩
        intro g hg
        rcases hdrop g hg with hk | hd
        · rw [List.length_eq_zero.mp hl] at hk; simp at hk
        · exact hd
      · simp only [hl, if_false] at h
        obtain ⟨suffix, hlog, hall⟩ := ih _ _ _ h
        refine ⟨healthEvents (healthAnswers w s.healthCalls tgs) ++ [Event.sleep 250] ++ suffix, ?_, ?_⟩
        · rw [hlog, hs2]; simp [sleep]
        · intro g hg
          rcases hdrop g hg with hk | ⟨targets, hmem, hno⟩
          · obtain ⟨targets, hmem, hno⟩ := hall g hk
            exact ⟨targets, by simp [hmem], hno⟩
          · exact ⟨targets, by simp [hmem], hno⟩

/-- The only error of `WaitUntilIPDraining` is that of the deadline. -/
theorem wait_error (w : World) (ctx : Ctx) (ip : String) (fuel : Nat) :
    ∀ (tgs : List String) (s s1 : State) (e : GoError),
      WaitUntilIPDraining w ctx ip fuel tgs s = (Outcome.returned (Except.error e), s1) →
      e = GoError.deadlineExceeded := by
  induction fuel with
  | zero => intro tgs s s1 e h; simp [WaitUntilIPDraining] at h
  | succ fuel ih =>
    intro tgs s s1 e h
    rw [WaitUntilIPDraining] at h
    rcases hs : scanTargetGroups w ctx ip tgs [] s with ⟨r, s2⟩
    rw [hs] at h
    cases r with
    | error e1 =>
      simp only [Prod.mk.injEq, Outcome.returned.injEq, Except.error.injEq] at h
      rw [← h.1]
      exact scan_error w ctx ip tgs [] s e1 s2 hs
    | ok next =>
      by_cases hl : next.length = 0
      · simp [hl] at h
      · simp only [hl, if_false] at h
        exact ih _ _ _ _ h

/-! ## Lemmas on the two listing loops -/

theorem getArn_error (w : World) (ctx : Ctx) (hostname : String) (fuel : Nat) :
    ∀ (s s1 : State) (e : GoError),
      GetArnForELBWithHostname w ctx hostname fuel s = (Outcome.returned (Except.error e), s1) →
      e = GoError.deadlineExceeded := by
  induction fuel with
  | zero => intro s s1 e h; simp [GetArnForELBWithHostname] at h
  | succ fuel ih =>
    intro s s1 e h
    rw [GetArnForELBWithHostname] at h
    simp only [ctxErr] at h
    cases hx : expiredAt w ctx s.ctxChecks with
    | true =>
      simp only [hx, Prod.mk.injEq, Outcome.returned.injEq, Except.error.injEq] at h
      exact h.1.symm
    | false =>
      simp only [hx, describeLoadBalancers] at h
      cases hr : w.describeLoadBalancers s.lbCalls with
      | err e1 => simp only [hr] at h; exact ih _ _ _ h
      | ok lbs =>
        simp only [hr] at h
        cases hf : findArn hostname lbs with
        | none => simp [hf] at h
        | some arn => simp [hf] at h

theorem getTargetGroups_error (w : World) (ctx : Ctx) (elbArn : String) (fuel : Nat) :
    ∀ (s s1 : State) (e : GoError),
      GetTargetGroupsForELB w ctx elbArn fuel s = (Outcome.returned (Except.error e), s1) →
      e = GoError.deadlineExceeded := by
  induction fuel with
  | zero => intro s s1 e h; simp [GetTargetGroupsForELB] at h
  | succ fuel ih =>
    intro s s1 e h
    rw [GetTargetGroupsForELB] at h
    simp only [ctxErr] at h
    cases hx : expiredAt w ctx s.ctxChecks with
    | true =>
      simp only [hx, Prod.mk.injEq, Outcome.returned.injEq, Except.error.injEq] at h
      exact h.1.symm
    | false =>
      simp only [hx, describeTargetGroups] at h
      cases hr : w.describeTargetGroups s.tgCalls elbArn with
      | err e1 => simp only [hr] at h; exact ih _ _ _ h
      | ok tgs => simp [hr] at h

/-- After `a` failed listings and a successful one, all before the deadline,
`GetArnForELBWithHostname` ends with the search of that listing. -/
theorem getArn_resolves (w : World) (ctx : Ctx) (hostname : String) (a : Nat) :
    ∀ (s : State) (lbs : List LoadBalancer) (fuel : Nat), a < fuel →
      (∀ i, i ≤ a → expiredAt w ctx (s.ctxChecks + i) = false) →
      (∀ i, i < a → ∃ e, w.describeLoadBalancers (s.lbCalls + i) = Resp.err e) →
      w.describeLoadBalancers (s.lbCalls + a) = Resp.ok lbs →
      GetArnForELBWithHostname w ctx hostname fuel s =
        (searchOutcome hostname lbs,
         { s with ctxChecks := s.ctxChecks + (a + 1), lbCalls := s.lbCalls + (a + 1),
                  log := s.log ++ (lbRetryEvents w s.lbCalls a ++
                    [Event.describeLoadBalancers (Resp.ok lbs)]) }) := by
  induction a with
  | zero =>
    intro s lbs fuel hf hlive _ hok
    obtain ⟨k, rfl⟩ : ∃ k, fuel = k + 1 := ⟨fuel - 1, by omega⟩
    have h0 : expiredAt w ctx s.ctxChecks = false := by simpa using hlive 0 (by omega)
    have hok0 : w.describeLoadBalancers s.lbCalls = Resp.ok lbs := by simpa using hok
    rw [GetArnForELBWithHostname]
    simp only [ctxErr, h0, describeLoadBalancers, hok0, searchOutcome]
    cases findArn hostname lbs <;> simp [lbRetryEvents]
  | succ a ih =>
    intro s lbs fuel hf hlive hfail hok
    obtain ⟨k, rfl⟩ : ∃ k, fuel = k + 1 := ⟨fuel - 1, by omega⟩
    have h0 : expiredAt w ctx s.ctxChecks = false := by simpa using hlive 0 (by omega)
    obtain ⟨e, he⟩ := hfail 0 (by omega)
    have he0 : w.describeLoadBalancers s.lbCalls = Resp.err e := by simpa using he
    rw [GetArnForELBWithHostname]
    simp only [ctxErr, h0, describeLoadBalancers, he0]
    rw [ih _ lbs k (by omega)]
    · simp [sleep, lbRetryEvents, he0, Nat.add_assoc, Nat.add_comm 1]
    · intro i hi
      have := hlive (i + 1) (by omega)
      simpa [sleep, Nat.add_assoc, Nat.add_comm 1 i] using this
    · intro i hi
      have := hfail (i + 1) (by omega)
      simpa [sleep, Nat.add_assoc, Nat.add_comm 1 i] using this
    · simpa [sleep, Nat.add_assoc, Nat.add_comm 1 a] using hok

/-- After `b` failed listings and a successful one, all before the deadline,
`GetTargetGroupsForELB` returns the IP groups of that listing. -/
theorem getTargetGroups_resolves (w : World) (ctx : Ctx) (elbArn : String) (b : Nat) :
    ∀ (s : State) (tgs : List TargetGroup) (fuel : Nat), b < fuel →
      (∀ i, i ≤ b → expiredAt w ctx (s.ctxChecks + i) = false) →
      (∀ i, i < b → ∃ e, w.describeTargetGroups (s.tgCalls + i) elbArn = Resp.err e) →
      w.describeTargetGroups (s.tgCalls + b) elbArn = Resp.ok tgs →
      GetTargetGroupsForELB w ctx elbArn fuel s =
        (Outcome.returned (Except.ok (ipTargetGroupArns tgs [])),
         { s with ctxChecks := s.ctxChecks + (b + 1), tgCalls := s.tgCalls + (b + 1),
                  log := s.log ++ (tgRetryEvents w elbArn s.tgCalls b ++
                    [Event.describeTargetGroups elbArn (Resp.ok tgs)]) }) := by
  induction b with
  | zero =>
    intro s tgs fuel hf hlive _ hok
    obtain ⟨k, rfl⟩ : ∃ k, fuel = k + 1 := ⟨fuel - 1, by omega⟩
    have h0 : expiredAt w ctx s.ctxChecks = false := by simpa using hlive 0 (by omega)
    have hok0 : w.describeTargetGroups s.tgCalls elbArn = Resp.ok tgs := by simpa using hok
    rw [GetTargetGroupsForELB]
    simp [ctxErr, h0, describeTargetGroups, hok0, tgRetryEvents]
  | succ b ih =>
    intro s tgs fuel hf hlive hfail hok
    obtain ⟨k, rfl⟩ : ∃ k, fuel = k + 1 := ⟨fuel - 1, by omega⟩
    have h0 : expiredAt w ctx s.ctxChecks = false := by simpa using hlive 0 (by omega)
    obtain ⟨e, he⟩ := hfail 0 (by omega)
    have he0 : w.describeTargetGroups s.tgCalls elbArn = Resp.err e := by simpa using he
    rw [GetTargetGroupsForELB]
    simp only [ctxErr, h0, describeTargetGroups, he0]
    rw [ih _ tgs k (by omega)]
    · simp [sleep, tgRetryEvents, he0, Nat.add_assoc, Nat.add_comm 1]
    · intro i hi
      have := hlive (i + 1) (by omega)
      simpa [sleep, Nat.add_assoc, Nat.add_comm 1 i] using this
    · intro i hi
      have := hfail (i + 1) (by omega)
      simpa [sleep, Nat.add_assoc, Nat.add_comm 1 i] using this
    · simpa [sleep, Nat.add_assoc, Nat.add_comm 1 b] using hok

theorem lbRetryEvents_kinds (w : World) (a : Nat) :
    ∀ k ev, ev ∈ lbRetryEvents w k a →
      ev.isDescribeTargetGroups = false ∧ ev.isDescribeTargetHealth = false := by
  induction a with
  | zero => intro k ev h; simp [lbRetryEvents] at h
  | succ a ih =>
    intro k ev h
    simp only [lbRetryEvents, List.mem_cons] at h
    rcases h with h | h | h
    · subst h; exact ⟨rfl, rfl⟩
    · subst h; exact ⟨rfl, rfl⟩
    · exact ih _ _ h

theorem tgRetryEvents_kinds (w : World) (elbArn : String) (b : Nat) :
    ∀ k ev, ev ∈ tgRetryEvents w elbArn k b → ev.isDescribeTargetHealth = false := by
  induction b with
  | zero => intro k ev h; simp [tgRetryEvents] at h
  | succ b ih =>
    intro k ev h
    simp only [tgRetryEvents, List.mem_cons] at h
    rcases h with h | h | h
    · subst h; rfl
    · subst h; rfl
    · exact ih _ _ h

/-! ## Lemmas on DelayUntilDrain and buildConfigFromRequest -/

theorem wait_nil (w : World) (ctx : Ctx) (ip : String) (fuel : Nat) (s : State) :
    WaitUntilIPDraining w ctx ip (fuel + 1) [] s = (Outcome.returned (Except.ok ()), s) := by
  simp [WaitUntilIPDraining, scanTargetGroups]

theorem ipTargetGroupArns_none (tgs : List TargetGroup) :
    ∀ acc : List String, (∀ tg, tg ∈ tgs → tg.TargetType ≠ TargetTypeEnum.ip) →
      ipTargetGroupArns tgs acc = acc := by
  induction tgs with
  | nil => intro acc _; rfl
  | cons tg rest ih =>
    intro acc h
    have h1 : tg.TargetType ≠ TargetTypeEnum.ip := h tg (List.mem_cons_self _ _)
    rw [ipTargetGroupArns]
    simp only [bne_iff_ne, ne_eq, h1, not_false_eq_true, if_true]
    exact ih acc (fun x hx => h x (List.mem_cons_of_mem _ hx))

theorem resolveHostname_all_empty (entries : List LoadBalancerIngress) :
    ∀ hostname : String, (∀ x, x ∈ entries → x.Hostname = "") →
      resolveHostname entries hostname = hostname := by
  induction entries with
  | nil => intro hostname _; rfl
  | cons x rest ih =>
    intro hostname h
    have h1 : x.Hostname = "" := h x (List.mem_cons_self _ _)
    rw [resolveHostname]
    simp only [h1, bne_self_eq_false, Bool.false_eq_true, if_false]
    exact ih hostname (fun y hy => h y (List.mem_cons_of_mem _ hy))

theorem resolveHostname_last (pre : List LoadBalancerIngress) :
    ∀ (hostname : String) (e : LoadBalancerIngress) (post : List LoadBalancerIngress),
      e.Hostname ≠ "" → (∀ x, x ∈ post → x.Hostname = "") →
      resolveHostname (pre ++ e :: post) hostname = e.Hostname := by
  induction pre with
  | nil =>
    intro hostname e post he hpost
    simp only [List.nil_append]
    rw [resolveHostname]
    simp only [bne_iff_ne, ne_eq, he, not_false_eq_true, if_true]
    exact resolveHostname_all_empty post _ hpost
  | cons x rest ih =>
    intro hostname e post he hpost
    simp only [List.cons_append]
    rw [resolveHostname]
    split
    · exact ih _ e post he hpost
    · exact ih _ e post he hpost

theorem findArn_first (hostname : String) (pre : List LoadBalancer) :
    ∀ (lb : LoadBalancer) (post : List LoadBalancer), lb.DNSName = some hostname →
      (∀ x, x ∈ pre → ∃ dnsName, x.DNSName = some dnsName ∧ dnsName ≠ hostname) →
      findArn hostname (pre ++ lb :: post) = lb.LoadBalancerArn := by
  induction pre with
  | nil =>
    intro lb post hlb _
    simp [findArn, hlb]
  | cons x rest ih =>
    intro lb post hlb hpre
    obtain ⟨dnsName, hx, hne⟩ := hpre x (List.mem_cons_self _ _)
    simp only [List.cons_append]
    rw [findArn]
    simp only [hx, beq_iff_eq, hne, if_false]
    exact ih lb post hlb (fun y hy => hpre y (List.mem_cons_of_mem _ hy))

theorem findArn_none (hostname : String) (lbs : List LoadBalancer)
    (h : ∀ x, x ∈ lbs → ∃ dnsName, x.DNSName = some dnsName ∧ dnsName ≠ hostname) :
    findArn hostname lbs = some "" := by
  induction lbs with
  | nil => rfl
  | cons x rest ih =>
    obtain ⟨dnsName, hx, hne⟩ := h x (List.mem_cons_self _ _)
    rw [findArn]
    simp only [hx, beq_iff_eq, hne, if_false]
    exact ih (fun y hy => h y (List.mem_cons_of_mem _ hy))

/-- The search panics at an entry without DNS name that no match precedes. -/
theorem findArn_nil_dns_name (hostname : String) (pre : List LoadBalancer) :
    ∀ (lb : LoadBalancer) (post : List LoadBalancer), lb.DNSName = none →
      (∀ x, x ∈ pre → ∃ dnsName, x.DNSName = some dnsName ∧ dnsName ≠ hostname) →
      findArn hostname (pre ++ lb :: post) = none := by
  induction pre with
  | nil =>
    intro lb post hlb _
    simp [findArn, hlb]
  | cons x rest ih =>
    intro lb post hlb hpre
    obtain ⟨dnsName, hx, hne⟩ := hpre x (List.mem_cons_self _ _)
    simp only [List.cons_append]
    rw [findArn]
    simp only [hx, beq_iff_eq, hne, if_false]
    exact ih lb post hlb (fun y hy => hpre y (List.mem_cons_of_mem _ hy))

theorem expiredAt_of_zero (w : World) (n : Nat) : expiredAt w (withTimeout 0) n = true := by
  have h : (withTimeout 0).timeout ≤ 0 := by decide
  simp [expiredAt, h]

theorem expiredAt_false_timeout (w : World) (ctx : Ctx) (n : Nat)
    (h : expiredAt w ctx n = false) : 0 < ctx.timeout := by
  unfold expiredAt at h
  simp only [Bool.or_eq_false_iff, decide_eq_false_iff_not, not_le] at h
  exact h.1

/-- The ingress Get with a context that is not done at its creation hands back the answer
of the world. -/
theorem ingressGet_live (w : World) (ctx : Ctx) (ns name : String) (s : State)
    (hpos : 0 < ctx.timeout) :
    ingressGet w ctx ns name s =
      (match w.ingressGet ns name with
        | Resp.err e => Except.error (GoError.collaborator e)
        | Resp.ok ingress => Except.ok ingress,
       { s with log := s.log ++ [Event.ingressGet ns name (w.ingressGet ns name)] }) := by
  have hn : ¬ ctx.timeout ≤ 0 := by omega
  unfold ingressGet
  simp only [hn, if_false]
  cases w.ingressGet ns name <;> rfl

/-- The ingress Get with a context that is done at its creation returns the error of the
deadline and leaves the state as it is. -/
theorem ingressGet_expired (w : World) (ctx : Ctx) (ns name : String) (s : State)
    (h : ctx.timeout ≤ 0) :
    ingressGet w ctx ns name s = (Except.error GoError.deadlineExceeded, s) := by
  unfold ingressGet
  simp only [h, if_true]

/-- A successful ingress Get: the context was live and the world answered with the
ingress. -/
theorem ingressGet_ok (w : World) (ctx : Ctx) (ns name : String) (s : State) (ingress : Ingress)
    (h : (ingressGet w ctx ns name s).1 = Except.ok ingress) :
    0 < ctx.timeout ∧ w.ingressGet ns name = Resp.ok ingress ∧
    ingressGet w ctx ns name s =
      (Except.ok ingress, { s with log := s.log ++ [Event.ingressGet ns name (Resp.ok ingress)] }) := by
  by_cases hx : ctx.timeout ≤ 0
  · rw [ingressGet_expired w ctx ns name s hx] at h
    cases h
  · have hpos : 0 < ctx.timeout := by omega
    rw [ingressGet_live w ctx ns name s hpos] at h
    cases hw : w.ingressGet ns name with
    | err e => rw [hw] at h; cases h
    | ok ing =>
      rw [hw] at h
      simp only [Except.ok.injEq] at h
      subst h
      refine ⟨hpos, rfl, ?_⟩
      rw [ingressGet_live w ctx ns name s hpos, hw]

theorem getArn_expired (w : World) (ctx : Ctx) (hostname : String) (fuel : Nat) (s : State)
    (h : expiredAt w ctx s.ctxChecks = true) :
    GetArnForELBWithHostname w ctx hostname (fuel + 1) s =
      (Outcome.returned (Except.error GoError.deadlineExceeded),
       { s with ctxChecks := s.ctxChecks + 1 }) := by
  rw [GetArnForELBWithHostname]
  simp [ctxErr, h]

theorem drainLoadBalancer_error (w : World) (ctx : Ctx) (ip : String) (fuel : Nat)
    (arn : String) (s s1 : State) (e : GoError)
    (h : drainLoadBalancer w ctx ip fuel arn s = (Outcome.returned (Except.error e), s1)) :
    e = GoError.deadlineExceeded := by
  unfold drainLoadBalancer at h
  rcases hg : GetTargetGroupsForELB w ctx arn fuel s with ⟨r, s2⟩
  rw [hg] at h
  match r, hg, h with
  | Outcome.outOfFuel, _, h => simp at h
  | Outcome.panic, _, h => simp at h
  | Outcome.returned (Except.error e1), hg, h =>
    simp only [Prod.mk.injEq, Outcome.returned.injEq, Except.error.injEq] at h
    rw [← h.1]
    exact getTargetGroups_error w ctx arn fuel s s2 e1 hg
  | Outcome.returned (Except.ok tgs), _, h =>
    exact wait_error w ctx ip fuel tgs s2 s1 e h

theorem drainHostname_error (w : World) (ctx : Ctx) (ip : String) (fuel : Nat)
    (hostname : String) (s s1 : State) (e : GoError)
    (h : drainHostname w ctx ip fuel hostname s = (Outcome.returned (Except.error e), s1)) :
    e = GoError.deadlineExceeded ∨
    e = GoError.errorsNew ("could not find ingress ELB ARN for hostname " ++ hostname) := by
  unfold drainHostname at h
  rcases hg : GetArnForELBWithHostname w ctx hostname fuel s with ⟨r, s2⟩
  rw [hg] at h
  match r, hg, h with
  | Outcome.outOfFuel, _, h => simp at h
  | Outcome.panic, _, h => simp at h
  | Outcome.returned (Except.error e1), hg, h =>
    simp only [Prod.mk.injEq, Outcome.returned.injEq, Except.error.injEq] at h
    rw [← h.1]
    exact Or.inl (getArn_error w ctx hostname fuel s s2 e1 hg)
  | Outcome.returned (Except.ok arn), _, h =>
    by_cases ha : (arn == "") = true
    · simp only [ha, if_true, Prod.mk.injEq, Outcome.returned.injEq, Except.error.injEq] at h
      exact Or.inr h.1.symm
    · simp only [ha, Bool.false_eq_true, if_false] at h
      exact Or.inl (drainLoadBalancer_error w ctx ip fuel arn s2 s1 e h)

theorem valuesGet_empty_iff (query : Values) (key : String) :
    query.Get key = "" ↔ query key = [] ∨ (query key).head? = some "" := by
  unfold Values.Get
  cases h : query key with
  | nil => simp
  | cons first rest => simp

/-! ## The claims -/

/-- C1: a scan of the working set during which the deadline does not expire returns as next
working set exactly the groups, in their order, whose health fetch failed or returned a
record of the target IP in a state other than Draining and Unused; a group answered with no
record of the IP, or with records of the IP in Draining or Unused only, is not kept. -/
theorem scan_next_working_set (w : World) (ctx : Ctx) (ip : String) (tgs : List String)
    (s : State) (hlive : ∀ i, i < tgs.length → expiredAt w ctx (s.ctxChecks + i) = false) :
    (scanTargetGroups w ctx ip tgs [] s).1 =
      Except.ok (keptGroups ip (healthAnswers w s.healthCalls tgs)) ∧
    (healthAnswers w s.healthCalls tgs).map Prod.fst = tgs ∧
    (keptGroups ip (healthAnswers w s.healthCalls tgs)).Sublist tgs ∧
    (∀ targets : List TargetHealthDescription,
      (∀ t, t ∈ targets → t.Id = ip →
        t.State = TargetHealthStateEnum.draining ∨ t.State = TargetHealthStateEnum.unused) →
      ¬ keepsGroup ip (Resp.ok targets)) := by
  refine ⟨?_, healthAnswers_fst w tgs _, keptGroups_sublist w ip _ tgs, ?_⟩
  · obtain ⟨next, s1, h⟩ := scan_live w ctx ip tgs [] s hlive
    obtain ⟨hnext, _, _⟩ := scan_ok w ctx ip tgs [] s next s1 h
    rw [h, hnext]
    simp
  · intro targets hall hk
    obtain ⟨t, ht, hid, hd, hu⟩ := hk
    rcases hall t ht hid with h | h
    · exact hd h
    · exact hu h

theorem scan_next_working_set_witness :
    (∀ i, i < ["tg1", "tg2", "tg3", "tg4"].length →
      expiredAt worldScan (withTimeout 60) (State.init.ctxChecks + i) = false) ∧
    (scanTargetGroups worldScan (withTimeout 60) "10.0.0.1" ["tg1", "tg2", "tg3", "tg4"] []
      State.init).1 = Except.ok ["tg1", "tg2"] :=
  ⟨by decide,
   (scan_next_working_set worldScan (withTimeout 60) "10.0.0.1" ["tg1", "tg2", "tg3", "tg4"]
      State.init (by decide)).1.trans (by decide)⟩

/-- C2: `WaitUntilIPDraining` returns nil exactly at the end of the first scan that keeps no
group (every earlier scan ran to its end and kept some group), and when it returns nil every
group of the initial list was, in some scan, answered successfully without a record of the
target IP in a state other than Draining and Unused. -/
theorem wait_success_drained (w : World) (ctx : Ctx) (ip : String) (fuel : Nat)
    (tgs : List String) (s s1 : State) :
    (WaitUntilIPDraining w ctx ip fuel tgs s = (Outcome.returned (Except.ok ()), s1) ↔
      ∃ n, n < fuel ∧ ∃ ws sn, workingSetAt w ctx ip n tgs s = some (ws, sn) ∧
        scanTargetGroups w ctx ip ws [] sn = (Except.ok [], s1) ∧
        ∀ k, k < n → ∃ wk sk next s2, workingSetAt w ctx ip k tgs s = some (wk, sk) ∧
          scanTargetGroups w ctx ip wk [] sk = (Except.ok next, s2) ∧ next ≠ []) ∧
    (WaitUntilIPDraining w ctx ip fuel tgs s = (Outcome.returned (Except.ok ()), s1) →
      ∃ suffix, s1.log = s.log ++ suffix ∧ ∀ g, g ∈ tgs → ∃ targets,
        Event.describeTargetHealth g (Resp.ok targets) ∈ suffix ∧
        ¬ ∃ t, t ∈ targets ∧ activeRecord ip t) := by
  refine ⟨⟨?_, ?_⟩, wait_ok_drained w ctx ip fuel tgs s s1⟩
  · intro h
    obtain ⟨n, hn, ws, sn, h1, h2⟩ := wait_ok_iteration w ctx ip fuel tgs s s1 h
    exact ⟨n, hn, ws, sn, h1, h2, workingSetAt_earlier w ctx ip tgs s n ws sn h1⟩
  · rintro ⟨n, hn, ws, sn, h1, h2, _⟩
    exact wait_ok_of_empty_scan w ctx ip tgs s s1 n fuel hn ws sn h1 h2

theorem wait_success_drained_witness :
    WaitUntilIPDraining worldB (withTimeout 60) "10.0.0.1" 5 ["tg1"] State.init =
      (Outcome.returned (Except.ok ()),
        (WaitUntilIPDraining worldB (withTimeout 60) "10.0.0.1" 5 ["tg1"] State.init).2) ∧
    ∃ suffix,
      (WaitUntilIPDraining worldB (withTimeout 60) "10.0.0.1" 5 ["tg1"] State.init).2.log =
        State.init.log ++ suffix ∧
      ∀ g, g ∈ ["tg1"] → ∃ targets,
        Event.describeTargetHealth g (Resp.ok targets) ∈ suffix ∧
        ¬ ∃ t, t ∈ targets ∧ activeRecord "10.0.0.1" t :=
  ⟨by decide,
   (wait_success_drained worldB (withTimeout 60) "10.0.0.1" 5 ["tg1"] State.init _).2
     (by decide)⟩

/-- C3: the working set of a later iteration of `WaitUntilIPDraining` is a sublist of the
working set of every earlier iteration and of the initial list, so a group missing from the
working set of an iteration is missing from every later one; the loop at iteration `m` goes
on with exactly that working set. -/
theorem working_set_never_grows (w : World) (ctx : Ctx) (ip : String) (tgs : List String)
    (s : State) (n m : Nat) (hnm : n ≤ m) (wm : List String) (sm : State)
    (hm : workingSetAt w ctx ip m tgs s = some (wm, sm)) :
    ∃ wn sn, workingSetAt w ctx ip n tgs s = some (wn, sn) ∧ wm.Sublist wn ∧
      wm.Sublist tgs ∧ (∀ g, g ∉ wn → g ∉ wm) ∧
      ∀ fuel, WaitUntilIPDraining w ctx ip (m + fuel) tgs s =
        WaitUntilIPDraining w ctx ip fuel wm sm := by
  have key : ∀ m wm sm, workingSetAt w ctx ip m tgs s = some (wm, sm) →
      ∀ n, n ≤ m → ∃ wn sn, workingSetAt w ctx ip n tgs s = some (wn, sn) ∧ wm.Sublist wn := by
    intro m
    induction m with
    | zero =>
      intro wm sm h n hn
      have : n = 0 := by omega
      subst this
      exact ⟨wm, sm, h, List.Sublist.refl _⟩
    | succ m ih =>
      intro wm sm h n hn
      by_cases hnm1 : n = m + 1
      · subst hnm1; exact ⟨wm, sm, h, List.Sublist.refl _⟩
      · obtain ⟨ws, sp, s2, h1, h2, _, _⟩ := workingSetAt_succ w ctx ip m tgs s wm sm h
        obtain ⟨hnext, _, _⟩ := scan_ok w ctx ip ws [] sp wm s2 h2
        simp only [List.nil_append] at hnext
        have hsub : wm.Sublist ws := by rw [hnext]; exact keptGroups_sublist w ip _ ws
        obtain ⟨wn, sn, h3, h4⟩ := ih ws sp h1 n (by omega)
        exact ⟨wn, sn, h3, hsub.trans h4⟩
  obtain ⟨wn, sn, h1, h2⟩ := key m wm sm hm n hnm
  obtain ⟨w0, s0, h3, h4⟩ := key m wm sm hm 0 (Nat.zero_le _)
  simp only [workingSetAt, Option.some.injEq, Prod.mk.injEq] at h3
  refine ⟨wn, sn, h1, h2, ?_, ?_, wait_from_workingSetAt w ctx ip m tgs s wm sm hm⟩
  · rw [h3.1]; exact h4
  · intro g hg hgm
    exact hg (h2.subset hgm)

theorem working_set_never_grows_witness :
    (1 ≤ 2 ∧ workingSetAt worldShrink (withTimeout 60) "10.0.0.1" 2 ["tg1", "tg2"] State.init =
      some (["tg2"],
        (WaitUntilIPDraining worldShrink (withTimeout 60) "10.0.0.1" 2 ["tg1", "tg2"]
          State.init).2)) ∧
    ∃ wn sn, workingSetAt worldShrink (withTimeout 60) "10.0.0.1" 1 ["tg1", "tg2"] State.init =
        some (wn, sn) ∧ ["tg2"].Sublist wn ∧ ["tg2"].Sublist ["tg1", "tg2"] ∧
      (∀ g, g ∉ wn → g ∉ ["tg2"]) ∧
      ∀ fuel, WaitUntilIPDraining worldShrink (withTimeout 60) "10.0.0.1" (2 + fuel)
          ["tg1", "tg2"] State.init =
        WaitUntilIPDraining worldShrink (withTimeout 60) "10.0.0.1" fuel ["tg2"]
          (WaitUntilIPDraining worldShrink (withTimeout 60) "10.0.0.1" 2 ["tg1", "tg2"]
            State.init).2 :=
  ⟨⟨by decide, by decide⟩,
   working_set_never_grows worldShrink (withTimeout 60) "10.0.0.1" ["tg1", "tg2"] State.init
     1 2 (by decide) ["tg2"] _ (by decide)⟩

/-- C4 (as the code has it): an error returned by `DelayUntilDrain` is the not-found error of
the ingress without hostname, the not-found error of a hostname without load balancer, the
timeout error of the deadline, or the error of the ingress Get itself, handed back unchanged
after the wait for the deadline (`waitUntil`); when the ingress Get succeeds, no collaborator
error is the value returned. -/
theorem delay_error_kinds (w : World) (fuel : Nat) (delayConfig : DelayConfig) (s s1 : State)
    (e : GoError)
    (h : DelayUntilDrain w fuel delayConfig s = (Outcome.returned (Except.error e), s1)) :
    (e = GoError.errorsNew ("No hostname for ingress " ++ delayConfig.IngressNamespace ++ "/" ++
          delayConfig.IngressName) ∨
      (∃ hostname, e = GoError.errorsNew
          ("could not find ingress ELB ARN for hostname " ++ hostname)) ∨
      e = GoError.deadlineExceeded ∨
      ∃ msg, w.ingressGet delayConfig.IngressNamespace delayConfig.IngressName = Resp.err msg ∧
        e = GoError.collaborator msg ∧
        s1.log = s.log ++ [Event.ingressGet delayConfig.IngressNamespace
          delayConfig.IngressName (Resp.err msg), Event.waitUntil]) ∧
    (∀ ingress, w.ingressGet delayConfig.IngressNamespace delayConfig.IngressName =
        Resp.ok ingress → ∀ msg, e ≠ GoError.collaborator msg) ∧
    (∀ err, (ingressGet w (withTimeout delayConfig.MaxDelay) delayConfig.IngressNamespace
          delayConfig.IngressName s).1 = Except.error err →
      e = err ∧
      s1.log = (ingressGet w (withTimeout delayConfig.MaxDelay) delayConfig.IngressNamespace
          delayConfig.IngressName s).2.log ++ [Event.waitUntil]) := by
  unfold DelayUntilDrain at h
  dsimp only at h
  by_cases hx : (withTimeout delayConfig.MaxDelay).timeout ≤ 0
  · rw [ingressGet_expired w _ _ _ s hx] at h
    simp only [Prod.mk.injEq, Outcome.returned.injEq, Except.error.injEq] at h
    obtain ⟨he, hs⟩ := h
    subst he; subst hs
    refine ⟨Or.inr (Or.inr (Or.inl rfl)), ?_, ?_⟩
    · intro _ _ msg hmsg; cases hmsg
    · intro err herr
      rw [ingressGet_expired w _ _ _ s hx] at herr ⊢
      simp only [Except.error.injEq] at herr
      exact ⟨herr, rfl⟩
  · have hpos : 0 < (withTimeout delayConfig.MaxDelay).timeout := by omega
    rw [ingressGet_live w _ _ _ s hpos] at h
    cases hget : w.ingressGet delayConfig.IngressNamespace delayConfig.IngressName with
    | err msg =>
      simp only [hget, Prod.mk.injEq, Outcome.returned.injEq, Except.error.injEq] at h
      obtain ⟨he, hs⟩ := h
      subst he; subst hs
      refine ⟨Or.inr (Or.inr (Or.inr ⟨msg, rfl, rfl, by simp [waitUntil]⟩)), ?_, ?_⟩
      · intro ingress hc; cases hc
      · intro err herr
        rw [ingressGet_live w _ _ _ s hpos, hget] at herr ⊢
        simp only [Except.error.injEq] at herr
        exact ⟨herr, rfl⟩
    | ok ingress =>
      simp only [hget] at h
      have hkinds : e = GoError.errorsNew ("No hostname for ingress " ++
            delayConfig.IngressNamespace ++ "/" ++ delayConfig.IngressName) ∨
          (∃ hostname, e = GoError.errorsNew
            ("could not find ingress ELB ARN for hostname " ++ hostname)) ∨
          e = GoError.deadlineExceeded := by
        by_cases hh : (resolveHostname ingress.LoadBalancerIngress "" == "") = true
        · simp only [hh, if_true, Prod.mk.injEq, Outcome.returned.injEq,
            Except.error.injEq] at h
          exact Or.inl h.1.symm
        · simp only [hh, Bool.false_eq_true, if_false] at h
          rcases drainHostname_error w _ _ fuel _ _ s1 e h with hd | hn
          · exact Or.inr (Or.inr hd)
          · exact Or.inr (Or.inl ⟨_, hn⟩)
      refine ⟨?_, ?_, ?_⟩
      · rcases hkinds with h1 | h2 | h3
        · exact Or.inl h1
        · exact Or.inr (Or.inl h2)
        · exact Or.inr (Or.inr (Or.inl h3))
      · intro _ _ msg hmsg
        rcases hkinds with h1 | ⟨_, h2⟩ | h3
        · rw [h1] at hmsg; cases hmsg
        · rw [h2] at hmsg; cases hmsg
        · rw [h3] at hmsg; cases hmsg
      · intro err herr
        rw [ingressGet_live w _ _ _ s hpos, hget] at herr
        cases herr

theorem delay_error_kinds_witness :
    (DelayUntilDrain worldGetFails 1 (sampleConfig 30) State.init =
        (Outcome.returned (Except.error (GoError.collaborator "connection refused")),
         (DelayUntilDrain worldGetFails 1 (sampleConfig 30) State.init).2) ∧
      (ingressGet worldGetFails (withTimeout (sampleConfig 30).MaxDelay)
        (sampleConfig 30).IngressNamespace (sampleConfig 30).IngressName State.init).1 =
        Except.error (GoError.collaborator "connection refused")) ∧
    GoError.collaborator "connection refused" = GoError.collaborator "connection refused" ∧
    (DelayUntilDrain worldGetFails 1 (sampleConfig 30) State.init).2.log =
      (ingressGet worldGetFails (withTimeout (sampleConfig 30).MaxDelay)
        (sampleConfig 30).IngressNamespace (sampleConfig 30).IngressName State.init).2.log ++
        [Event.waitUntil] :=
  ⟨⟨by decide, by decide⟩,
   (delay_error_kinds worldGetFails 1 (sampleConfig 30) State.init
      (DelayUntilDrain worldGetFails 1 (sampleConfig 30) State.init).2
      (GoError.collaborator "connection refused") (by decide)).2.2
      (GoError.collaborator "connection refused") (by decide)⟩

/-- C4 fails as stated: when the ingress Get fails, `DelayUntilDrain` waits for the deadline
and then hands the error of the Get back to the caller, which is neither a not-found error
nor the error of the deadline. -/
theorem delay_returns_ingress_get_error :
    worldGetFails.ingressGet "ns1" "ing1" = Resp.err "connection refused" ∧
    DelayUntilDrain worldGetFails 3 (sampleConfig 60) State.init =
      (Outcome.returned (Except.error (GoError.collaborator "connection refused")),
       { State.init with log := [Event.ingressGet "ns1" "ing1" (Resp.err "connection refused"),
          Event.waitUntil] }) ∧
    (DelayUntilDrain worldGetFails 3 (sampleConfig 60) State.init).1 ≠
      Outcome.returned (Except.error GoError.deadlineExceeded) ∧
    ∀ msg, (DelayUntilDrain worldGetFails 3 (sampleConfig 60) State.init).1 ≠
      Outcome.returned (Except.error (GoError.errorsNew msg)) := by
  refine ⟨by decide, by decide, by decide, ?_⟩
  intro msg h
  have h1 : (DelayUntilDrain worldGetFails 3 (sampleConfig 60) State.init).1 =
      Outcome.returned (Except.error (GoError.collaborator "connection refused")) := by decide
  rw [h1] at h
  cases h

/-- C6: when the ingress Get succeeds and no status entry has a non-empty hostname,
`DelayUntilDrain` returns the error "No hostname for ingress <namespace>/<name>" and the
ingress Get is the only call it makes. -/
theorem delay_no_hostname (w : World) (fuel : Nat) (delayConfig : DelayConfig) (s : State)
    (ingress : Ingress)
    (hget : (ingressGet w (withTimeout delayConfig.MaxDelay) delayConfig.IngressNamespace
      delayConfig.IngressName s).1 = Except.ok ingress)
    (hnone : ∀ x, x ∈ ingress.LoadBalancerIngress → x.Hostname = "") :
    DelayUntilDrain w fuel delayConfig s =
      (Outcome.returned (Except.error (GoError.errorsNew ("No hostname for ingress " ++
          delayConfig.IngressNamespace ++ "/" ++ delayConfig.IngressName))),
       { s with log := s.log ++ [Event.ingressGet delayConfig.IngressNamespace
          delayConfig.IngressName (Resp.ok ingress)] }) ∧
    (DelayUntilDrain w fuel delayConfig s).2.lbCalls = s.lbCalls ∧
    (DelayUntilDrain w fuel delayConfig s).2.tgCalls = s.tgCalls ∧
    (DelayUntilDrain w fuel delayConfig s).2.healthCalls = s.healthCalls := by
  have hh : resolveHostname ingress.LoadBalancerIngress "" = "" :=
    resolveHostname_all_empty _ _ hnone
  obtain ⟨_, _, hres⟩ := ingressGet_ok w _ _ _ s ingress hget
  have key : DelayUntilDrain w fuel delayConfig s =
      (Outcome.returned (Except.error (GoError.errorsNew ("No hostname for ingress " ++
          delayConfig.IngressNamespace ++ "/" ++ delayConfig.IngressName))),
       { s with log := s.log ++ [Event.ingressGet delayConfig.IngressNamespace
          delayConfig.IngressName (Resp.ok ingress)] }) := by
    unfold DelayUntilDrain
    dsimp only
    rw [hres]
    simp [hh]
  refine ⟨key, ?_, ?_, ?_⟩ <;> rw [key]

theorem delay_no_hostname_witness :
    ((ingressGet worldNoHostname (withTimeout (sampleConfig 60).MaxDelay)
        (sampleConfig 60).IngressNamespace (sampleConfig 60).IngressName State.init).1 =
        Except.ok ⟨[⟨""⟩, ⟨""⟩]⟩ ∧
      ∀ x, x ∈ (⟨[⟨""⟩, ⟨""⟩]⟩ : Ingress).LoadBalancerIngress → x.Hostname = "") ∧
    (DelayUntilDrain worldNoHostname 3 (sampleConfig 60) State.init).1 =
      Outcome.returned (Except.error (GoError.errorsNew "No hostname for ingress ns1/ing1")) :=
  ⟨⟨by decide, by decide⟩,
   (congrArg Prod.fst (delay_no_hostname worldNoHostname 3 (sampleConfig 60) State.init
      ⟨[⟨""⟩, ⟨""⟩]⟩ (by decide) (by decide)).1).trans (by decide)⟩

/-- C7: fails on the code at a listing with an entry without DNS name.  The listing is
answered before the deadline and its second entry is the first load balancer whose DNS name
equals the hostname, yet `GetArnForELBWithHostname` panics at the first entry (line 259
dereferences the nil `*elb.DNSName`) instead of returning `arn:lb`; for a hostname that no
entry has it panics instead of returning not-found; `DelayUntilDrain` panics with it. -/
theorem getArn_panics_without_dns_name :
    worldGateway.describeLoadBalancers State.init.lbCalls =
      Resp.ok [⟨none, some "arn:gwlb"⟩, ⟨some "lb.example.com", some "arn:lb"⟩] ∧
    expiredAt worldGateway (withTimeout 60) State.init.ctxChecks = false ∧
    GetArnForELBWithHostname worldGateway (withTimeout 60) "lb.example.com" 3 State.init =
      (Outcome.panic,
       ⟨1, 1, 0, 0, [Event.describeLoadBalancers
          (Resp.ok [⟨none, some "arn:gwlb"⟩, ⟨some "lb.example.com", some "arn:lb"⟩])]⟩) ∧
    (GetArnForELBWithHostname worldGateway (withTimeout 60) "lb.example.com" 3 State.init).1 ≠
      Outcome.returned (Except.ok "arn:lb") ∧
    (GetArnForELBWithHostname worldGateway (withTimeout 60) "absent.example.com" 3
      State.init).1 = Outcome.panic ∧
    (DelayUntilDrain worldGateway 3 (sampleConfig 60) State.init).1 = Outcome.panic := by
  refine ⟨by decide, by decide, by decide, by decide, by decide, by decide⟩

/-- C8: when the hostname resolves to a load balancer and the successful listing of its
target groups holds no group of target type IP, `GetTargetGroupsForELB` returns the empty
list and `DelayUntilDrain` returns nil without a `DescribeTargetHealth` call. -/
theorem delay_no_ip_groups (w : World) (delayConfig : DelayConfig) (s : State)
    (ingress : Ingress) (a b : Nat) (lbs : List LoadBalancer) (tgs : List TargetGroup)
    (fuel : Nat) (arn : String)
    (hget : w.ingressGet delayConfig.IngressNamespace delayConfig.IngressName = Resp.ok ingress)
    (hhost : resolveHostname ingress.LoadBalancerIngress "" ≠ "")
    (hfa : a < fuel) (hfb : b < fuel)
    (hlive : ∀ i, i ≤ a + b + 1 →
      expiredAt w (withTimeout delayConfig.MaxDelay) (s.ctxChecks + i) = false)
    (hlbfail : ∀ i, i < a → ∃ e, w.describeLoadBalancers (s.lbCalls + i) = Resp.err e)
    (hlbok : w.describeLoadBalancers (s.lbCalls + a) = Resp.ok lbs)
    (hfound : findArn (resolveHostname ingress.LoadBalancerIngress "") lbs = some arn)
    (harn : arn ≠ "")
    (htgfail : ∀ i, i < b → ∃ e, w.describeTargetGroups (s.tgCalls + i) arn = Resp.err e)
    (htgok : w.describeTargetGroups (s.tgCalls + b) arn = Resp.ok tgs)
    (hnoip : ∀ tg, tg ∈ tgs → tg.TargetType ≠ TargetTypeEnum.ip) :
    (GetTargetGroupsForELB w (withTimeout delayConfig.MaxDelay) arn fuel
      { s with ctxChecks := s.ctxChecks + (a + 1), lbCalls := s.lbCalls + (a + 1),
               log := s.log ++ [Event.ingressGet delayConfig.IngressNamespace
                  delayConfig.IngressName (Resp.ok ingress)] ++
                 (lbRetryEvents w s.lbCalls a ++ [Event.describeLoadBalancers (Resp.ok lbs)]) }).1 =
      Outcome.returned (Except.ok []) ∧
    ∃ s1, DelayUntilDrain w fuel delayConfig s = (Outcome.returned (Except.ok ()), s1) ∧
      s1.healthCalls = s.healthCalls ∧
      ∃ suffix, s1.log = s.log ++ suffix ∧ ∀ ev, ev ∈ suffix →
        ev.isDescribeTargetHealth = false := by
  obtain ⟨k, rfl⟩ : ∃ k, fuel = k + 1 := ⟨fuel - 1, by omega⟩
  have hpos : 0 < (withTimeout delayConfig.MaxDelay).timeout :=
    expiredAt_false_timeout w _ _ (hlive 0 (by omega))
  have hb : (resolveHostname ingress.LoadBalancerIngress "" == "") = false := by
    simpa using hhost
  have hab : (arn == "") = false := by simpa using harn
  have harnres := getArn_resolves w (withTimeout delayConfig.MaxDelay)
    (resolveHostname ingress.LoadBalancerIngress "") a
    { s with log := s.log ++ [Event.ingressGet delayConfig.IngressNamespace
      delayConfig.IngressName (Resp.ok ingress)] } lbs (k + 1) hfa
    (fun i hi => hlive i (by omega)) hlbfail hlbok
  simp only [searchOutcome, hfound] at harnres
  have htgres := getTargetGroups_resolves w (withTimeout delayConfig.MaxDelay) arn b
    { s with ctxChecks := s.ctxChecks + (a + 1), lbCalls := s.lbCalls + (a + 1),
             log := s.log ++ [Event.ingressGet delayConfig.IngressNamespace
                delayConfig.IngressName (Resp.ok ingress)] ++
               (lbRetryEvents w s.lbCalls a ++ [Event.describeLoadBalancers (Resp.ok lbs)]) }
    tgs (k + 1) hfb
    (fun i hi => by
      have := hlive (a + 1 + i) (by omega)
      simpa [Nat.add_assoc] using this)
    htgfail htgok
  rw [ipTargetGroupArns_none tgs [] hnoip] at htgres
  have key : DelayUntilDrain w (k + 1) delayConfig s =
      (Outcome.returned (Except.ok ()),
       { s with ctxChecks := s.ctxChecks + (a + 1) + (b + 1), lbCalls := s.lbCalls + (a + 1),
                tgCalls := s.tgCalls + (b + 1),
                log := s.log ++ [Event.ingressGet delayConfig.IngressNamespace
                    delayConfig.IngressName (Resp.ok ingress)] ++
                  (lbRetryEvents w s.lbCalls a ++ [Event.describeLoadBalancers (Resp.ok lbs)]) ++
                  (tgRetryEvents w arn s.tgCalls b ++
                    [Event.describeTargetGroups arn (Resp.ok tgs)]) }) := by
    unfold DelayUntilDrain
    dsimp only
    rw [ingressGet_live w _ _ _ s hpos, hget]
    simp only [hb, Bool.false_eq_true, if_false]
    unfold drainHostname
    rw [harnres]
    simp only [hab, Bool.false_eq_true, if_false]
    unfold drainLoadBalancer
    rw [htgres]
    simp only []
    exact wait_nil w _ _ k _
  refine ⟨by rw [htgres], _, key, rfl,
    [Event.ingressGet delayConfig.IngressNamespace delayConfig.IngressName
        (Resp.ok ingress)] ++ (lbRetryEvents w s.lbCalls a ++
          [Event.describeLoadBalancers (Resp.ok lbs)]) ++
        (tgRetryEvents w arn s.tgCalls b ++ [Event.describeTargetGroups arn (Resp.ok tgs)]),
    by simp, ?_⟩
  · intro ev hev
    simp only [List.mem_append, List.mem_singleton] at hev
    rcases hev with (hev | hev | hev) | hev | hev
    · subst hev; rfl
    · exact (lbRetryEvents_kinds w a _ ev hev).2
    · subst hev; rfl
    · exact tgRetryEvents_kinds w _ b _ ev hev
    · subst hev; rfl

theorem delay_no_ip_groups_witness :
    (worldNoIpGroups.ingressGet (sampleConfig 60).IngressNamespace (sampleConfig 60).IngressName =
        Resp.ok ⟨[⟨"lb.example.com"⟩]⟩ ∧
      resolveHostname (⟨[⟨"lb.example.com"⟩]⟩ : Ingress).LoadBalancerIngress "" ≠ "" ∧
      1 < 3 ∧
      (∀ i, i ≤ 1 + 1 + 1 →
        expiredAt worldNoIpGroups (withTimeout (sampleConfig 60).MaxDelay)
          (State.init.ctxChecks + i) = false) ∧
      worldNoIpGroups.describeLoadBalancers (State.init.lbCalls + 1) =
        Resp.ok [⟨some "other.example.com", some "arn:other"⟩,
          ⟨some "lb.example.com", some "arn:lb"⟩, ⟨some "lb.example.com", some "arn:twin"⟩] ∧
      findArn (resolveHostname (⟨[⟨"lb.example.com"⟩]⟩ : Ingress).LoadBalancerIngress "")
        [⟨some "other.example.com", some "arn:other"⟩,
          ⟨some "lb.example.com", some "arn:lb"⟩, ⟨some "lb.example.com", some "arn:twin"⟩] =
        some "arn:lb" ∧
      "arn:lb" ≠ "" ∧
      worldNoIpGroups.describeTargetGroups (State.init.tgCalls + 1) "arn:lb" =
        Resp.ok [⟨"tg1", TargetTypeEnum.instanceType⟩, ⟨"tg2", TargetTypeEnum.lambda⟩]) ∧
    ∃ s1, DelayUntilDrain worldNoIpGroups 3 (sampleConfig 60) State.init =
        (Outcome.returned (Except.ok ()), s1) ∧
      s1.healthCalls = State.init.healthCalls ∧
      ∃ suffix, s1.log = State.init.log ++ suffix ∧ ∀ ev, ev ∈ suffix →
        ev.isDescribeTargetHealth = false :=
  ⟨⟨rfl, by decide, by decide, by decide, rfl, by decide, by decide, rfl⟩,
   (delay_no_ip_groups worldNoIpGroups (sampleConfig 60) State.init ⟨[⟨"lb.example.com"⟩]⟩ 1 1
      [⟨some "other.example.com", some "arn:other"⟩, ⟨some "lb.example.com", some "arn:lb"⟩,
        ⟨some "lb.example.com", some "arn:twin"⟩]
      [⟨"tg1", TargetTypeEnum.instanceType⟩, ⟨"tg2", TargetTypeEnum.lambda⟩] 3 "arn:lb"
      rfl (by decide) (by decide) (by decide) (by decide)
      (fun i hi => ⟨"throttled", by
        have h0 : i = 0 := by omega
        subst h0; rfl⟩)
      rfl (by decide) (by decide)
      (fun i hi => ⟨"throttled", by
        have h0 : i = 0 := by omega
        subst h0; rfl⟩)
      rfl (by decide)).2⟩

/-- C9 (as the code has it): `buildConfigFromRequest` fails when the value of max-delay is
not empty and `strconv.Atoi` rejects it, and when ip, namespace or ingress is missing or
empty; the handler then answers 400 and calls nothing.  Otherwise it returns the
`DelayConfig` of the given ip, namespace and ingress, with `MaxDelay` the parsed max-delay,
or 60 when max-delay is absent or empty. -/
theorem build_config_from_request (atoi : String → Except GoError Int) (query : Values) :
    (∀ e, query.Get "max-delay" ≠ "" → atoi (query.Get "max-delay") = Except.error e →
      buildConfigFromRequest atoi query = Except.error e) ∧
    ((query.Get "ip" = "" ∨ query.Get "namespace" = "" ∨ query.Get "ingress" = "") →
      ∃ e, buildConfigFromRequest atoi query = Except.error e) ∧
    (∀ e, buildConfigFromRequest atoi query = Except.error e →
      ∀ (w : World) (fuel : Nat) (s : State),
        drainDelayHandler w atoi fuel query s = (Outcome.returned (400, "Bad request\n"), s)) ∧
    (query.Get "ip" ≠ "" → query.Get "namespace" ≠ "" → query.Get "ingress" ≠ "" →
      (query.Get "max-delay" = "" →
        buildConfigFromRequest atoi query =
          Except.ok ⟨60, query.Get "ip", query.Get "namespace", query.Get "ingress"⟩) ∧
      (∀ n, query.Get "max-delay" ≠ "" → atoi (query.Get "max-delay") = Except.ok n →
        buildConfigFromRequest atoi query =
          Except.ok ⟨n, query.Get "ip", query.Get "namespace", query.Get "ingress"⟩)) ∧
    (∀ key, query.Get key = "" ↔ query key = [] ∨ (query key).head? = some "") := by
  refine ⟨?_, ?_, ?_, ?_, valuesGet_empty_iff query⟩
  · intro e hne he
    have hb : (query.Get "max-delay" == "") = false := by simpa using hne
    unfold buildConfigFromRequest
    simp [hb, he]
  · intro hmiss
    have hreq : ∀ n : Int, ∃ e,
        (if (query.Get "ip" == "") = true then
            Except.error (GoError.errorsNew "ip must be in query param")
          else if (query.Get "namespace" == "") = true then
            Except.error (GoError.errorsNew "namespace must be in query param")
          else if (query.Get "ingress" == "") = true then
            Except.error (GoError.errorsNew "ingress must be in query param")
          else (Except.ok ⟨n, query.Get "ip", query.Get "namespace", query.Get "ingress"⟩ :
            Except GoError DelayConfig)) = Except.error e := by
      intro n
      by_cases h1 : query.Get "ip" = ""
      · exact ⟨GoError.errorsNew "ip must be in query param", by simp [h1]⟩
      · by_cases h2 : query.Get "namespace" = ""
        · exact ⟨GoError.errorsNew "namespace must be in query param", by simp [h1, h2]⟩
        · have h3 : query.Get "ingress" = "" := by
            rcases hmiss with h | h | h
            · exact absurd h h1
            · exact absurd h h2
            · exact h
          exact ⟨GoError.errorsNew "ingress must be in query param", by simp [h1, h2, h3]⟩
    unfold buildConfigFromRequest
    by_cases hm : (query.Get "max-delay" == "") = true
    · simp only [hm, if_true]
      exact hreq 60
    · simp only [hm, Bool.false_eq_true, if_false]
      cases ha : atoi (query.Get "max-delay") with
      | error e => exact ⟨e, rfl⟩
      | ok n => exact hreq n
  · intro e he w fuel s
    unfold drainDelayHandler
    rw [he]
  · intro h1 h2 h3
    refine ⟨?_, ?_⟩
    · intro hm
      unfold buildConfigFromRequest
      simp [hm, h1, h2, h3]
    · intro n hne hn
      have hb : (query.Get "max-delay" == "") = false := by simpa using hne
      unfold buildConfigFromRequest
      simp [hb, hn, h1, h2, h3]

theorem build_config_from_request_witness :
    (queryFull.Get "ip" ≠ "" ∧ queryFull.Get "namespace" ≠ "" ∧ queryFull.Get "ingress" ≠ "" ∧
      queryFull.Get "max-delay" ≠ "" ∧ decimalAtoi (queryFull.Get "max-delay") = Except.ok 30) ∧
    buildConfigFromRequest decimalAtoi queryFull =
      Except.ok ⟨30, queryFull.Get "ip", queryFull.Get "namespace", queryFull.Get "ingress"⟩ ∧
    (∀ (w : World) (fuel : Nat) (s : State),
      drainDelayHandler w decimalAtoi fuel queryBad s = (Outcome.returned (400, "Bad request\n"), s)) :=
  ⟨⟨by decide, by decide, by decide, by decide, by decide⟩,
   ((build_config_from_request decimalAtoi queryFull).2.2.2.1 (by decide) (by decide)
      (by decide)).2 30 (by decide) (by decide),
   (build_config_from_request decimalAtoi queryBad).2.2.1 (GoError.strconv "soon")
      ((build_config_from_request decimalAtoi queryBad).1 (GoError.strconv "soon")
        (by decide) (by decide))⟩

/-- C9 fails as stated: a max-delay that is present with an empty value is not an integer
(`strconv.Atoi` rejects the empty string), yet `buildConfigFromRequest` succeeds with the
default of 60. -/
theorem empty_max_delay_defaults :
    queryEmptyMaxDelay "max-delay" = [""] ∧
    decimalAtoi (queryEmptyMaxDelay.Get "max-delay") = Except.error (GoError.strconv "") ∧
    buildConfigFromRequest decimalAtoi queryEmptyMaxDelay =
      Except.ok ⟨60, "10.0.0.1", "ns1", "ing1"⟩ := by
  refine ⟨by decide, by decide, by decide⟩

/-- C10: the hostname `DelayUntilDrain` resolves is that of the last status entry with a
non-empty hostname, whatever comes before it; `GetArnForELBWithHostname` is called with
that hostname, and the load balancer it returns is the one whose groups are awaited. -/
theorem hostname_of_last_entry (w : World) (fuel : Nat) (delayConfig : DelayConfig) (s : State)
    (ingress : Ingress) (pre : List LoadBalancerIngress) (e : LoadBalancerIngress)
    (post : List LoadBalancerIngress)
    (hget : (ingressGet w (withTimeout delayConfig.MaxDelay) delayConfig.IngressNamespace
      delayConfig.IngressName s).1 = Except.ok ingress)
    (hsplit : ingress.LoadBalancerIngress = pre ++ e :: post)
    (he : e.Hostname ≠ "") (hpost : ∀ x, x ∈ post → x.Hostname = "") :
    resolveHostname ingress.LoadBalancerIngress "" = e.Hostname ∧
    DelayUntilDrain w fuel delayConfig s =
      drainHostname w (withTimeout delayConfig.MaxDelay) delayConfig.IPAddress fuel e.Hostname
        { s with log := s.log ++ [Event.ingressGet delayConfig.IngressNamespace
            delayConfig.IngressName (Resp.ok ingress)] } ∧
    (∀ arn s1, GetArnForELBWithHostname w (withTimeout delayConfig.MaxDelay) e.Hostname fuel
        { s with log := s.log ++ [Event.ingressGet delayConfig.IngressNamespace
            delayConfig.IngressName (Resp.ok ingress)] } =
          (Outcome.returned (Except.ok arn), s1) →
      arn ≠ "" →
      DelayUntilDrain w fuel delayConfig s =
        drainLoadBalancer w (withTimeout delayConfig.MaxDelay) delayConfig.IPAddress fuel arn
          s1) := by
  have hres : resolveHostname ingress.LoadBalancerIngress "" = e.Hostname := by
    rw [hsplit]; exact resolveHostname_last pre "" e post he hpost
  have hb : (e.Hostname == "") = false := by simpa using he
  obtain ⟨_, _, hgetres⟩ := ingressGet_ok w _ _ _ s ingress hget
  have hdelay : DelayUntilDrain w fuel delayConfig s =
      drainHostname w (withTimeout delayConfig.MaxDelay) delayConfig.IPAddress fuel e.Hostname
        { s with log := s.log ++ [Event.ingressGet delayConfig.IngressNamespace
            delayConfig.IngressName (Resp.ok ingress)] } := by
    unfold DelayUntilDrain
    dsimp only
    rw [hgetres]
    simp only [hres, hb, Bool.false_eq_true, if_false]
  refine ⟨hres, hdelay, ?_⟩
  intro arn s1 harn hne
  have hab : (arn == "") = false := by simpa using hne
  rw [hdelay]
  unfold drainHostname
  rw [harn]
  simp only [hab, Bool.false_eq_true, if_false]

theorem hostname_of_last_entry_witness :
    ((ingressGet worldTwoHostnames (withTimeout (sampleConfig 60).MaxDelay)
        (sampleConfig 60).IngressNamespace (sampleConfig 60).IngressName State.init).1 =
        Except.ok ⟨[⟨"first.example.com"⟩, ⟨""⟩, ⟨"last.example.com"⟩, ⟨""⟩]⟩ ∧
      (⟨[⟨"first.example.com"⟩, ⟨""⟩, ⟨"last.example.com"⟩, ⟨""⟩]⟩ : Ingress).LoadBalancerIngress =
        [⟨"first.example.com"⟩, ⟨""⟩] ++ (⟨"last.example.com"⟩ : LoadBalancerIngress) :: [⟨""⟩] ∧
      (⟨"last.example.com"⟩ : LoadBalancerIngress).Hostname ≠ "" ∧
      ∀ x, x ∈ [(⟨""⟩ : LoadBalancerIngress)] → x.Hostname = "") ∧
    resolveHostname
      (⟨[⟨"first.example.com"⟩, ⟨""⟩, ⟨"last.example.com"⟩, ⟨""⟩]⟩ : Ingress).LoadBalancerIngress
      "" = "last.example.com" ∧
    Event.describeTargetGroups "arn:last" (Resp.ok []) ∈
      (DelayUntilDrain worldTwoHostnames 3 (sampleConfig 60) State.init).2.log :=
  ⟨⟨by decide, rfl, by decide, by decide⟩,
   (hostname_of_last_entry worldTwoHostnames 3 (sampleConfig 60) State.init
      ⟨[⟨"first.example.com"⟩, ⟨""⟩, ⟨"last.example.com"⟩, ⟨""⟩]⟩
      [⟨"first.example.com"⟩, ⟨""⟩] ⟨"last.example.com"⟩ [⟨""⟩] (by decide) rfl (by decide)
      (by decide)).1,
   by decide⟩

end DrainWait
